import Mathlib

/-!
Shallow embedding of `albumentations/core/utils.py`: the `DataProcessor`
pipeline (label-field attachment/stripping, format check-and-convert,
pre/postprocess), `get_shape`, and the `to_tuple` range normalizer.

Samples (Python dicts) are association lists from string keys to entries;
a Python exception is modelled as `Except.error` carrying both the raised
error and the dict's state at raise time, since Python mutates the dict in
place and a caller observes the partial mutation.
-/

set_option autoImplicit false

namespace Albu

/-- Image values accepted by `get_shape`: a numpy array (shape known), a
torch tensor (shape known), or an arbitrary other object whose Python type
name is recorded. -/
inductive Img where
  | ndarray (shape : List Nat)
  | tensor (shape : List Nat)
  | other (typeName : String)
deriving DecidableEq

/-- Python exceptions raised by the embedded code. -/
inductive Err where
  | valueError (msg : String)
  | runtimeError (msg : String)
  | keyError (key : String)
  | typeError (msg : String)
  | indexError (msg : String)
deriving DecidableEq

/-- The message of `get_shape`'s RuntimeError, parametrized by the Python
type name of the rejected image value. -/
def unsupportedImageMsg (typeName : String) : String :=
  "Albumentations supports only numpy.ndarray and torch.Tensor data type for image. Got: "
    ++ typeName

/-- Embedding of `get_shape`: first two dimensions of a numpy array, last
two dimensions of a torch tensor, RuntimeError naming the type otherwise. -/
def get_shape : Img → Except Err (List Nat)
  | .ndarray s => .ok (s.take 2)
  | .tensor s => .ok (s.drop (s.length - 2))
  | .other t => .error (.runtimeError (unsupportedImageMsg t))

/-- A value stored under one key of a sample dict: an annotation stream
(list of records, each a list of scalars), a label column (list of
scalars), or an image. Scalars are modelled as integers. -/
inductive Entry where
  | stream (recs : List (List Int))
  | col (vals : List Int)
  | image (img : Img)
deriving DecidableEq

/-- A sample: a Python dict from string keys to entries, as an association
list (first binding of a key wins, insertion preserves position). -/
abbrev Data := List (String × Entry)

/-- Dict read: first binding of the key. -/
def lookup : Data → String → Option Entry
  | [], _ => none
  | (k, v) :: rest, key => if k = key then some v else lookup rest key

/-- Dict write: replace the first binding of the key in place, or append a
new binding at the end — Python dict assignment semantics. -/
def setKey : Data → String → Entry → Data
  | [], key, v => [(key, v)]
  | (k, w) :: rest, key, v =>
      if k = key then (key, v) :: rest else (k, w) :: setKey rest key v

/-- Embedding of `Params`: declared external format plus optional ordered
label-field names. -/
structure Params where
  format : String
  label_fields : Option (List String)

/-- Embedding of `DataProcessor`: concrete configuration plus the four
abstract methods (`filter`, `check`, the two converters) as function
fields, since concrete subclasses live outside this module. -/
structure DataProcessor where
  params : Params
  default_data_name : String
  data_fields : List String
  filter : List (List Int) → List Nat → List (List Int)
  check : List (List Int) → List Nat → Except Err Unit
  convert_to_albumentations : List (List Int) → List Nat → Except Err (List (List Int))
  convert_from_albumentations : List (List Int) → List Nat → Except Err (List (List Int))

/-- Embedding of `DataProcessor.add_targets`: accept an alias exactly when
its target equals the default stream name and the alias is not yet in
`data_fields`; accepted aliases are appended in iteration order. -/
def add_targets (p : DataProcessor) (additional_targets : List (String × String)) :
    DataProcessor :=
  additional_targets.foldl
    (fun q kv =>
      if kv.2 = q.default_data_name ∧ ¬ kv.1 ∈ q.data_fields then
        { q with data_fields := q.data_fields ++ [kv.1] }
      else q)
    p

/-- The message of the invalid-direction ValueError in `check_and_convert`. -/
def invalidDirectionMsg (direction : String) : String :=
  "Invalid direction. Must be `to` or `from`. Got `" ++ direction ++ "`"

/-- Embedding of `DataProcessor.check_and_convert`: on the canonical format
only `check` runs and the data is returned unchanged; otherwise dispatch on
the direction token, rejecting unknown tokens. -/
def check_and_convert (p : DataProcessor) (data : List (List Int)) (image_shape : List Nat)
    (direction : String) : Except Err (List (List Int)) :=
  if p.params.format = "albumentations" then
    match p.check data image_shape with
    | .ok _ => .ok data
    | .error e => .error e
  else if direction = "to" then p.convert_to_albumentations data image_shape
  else if direction = "from" then p.convert_from_albumentations data image_shape
  else .error (.valueError (invalidDirectionMsg direction))

/-- The message of the length-mismatch ValueError in
`add_label_fields_to_data`, naming the stream length and the column length. -/
def lenMismatchMsg (streamLen colLen : Nat) : String :=
  "The lengths of bboxes and labels do not match. Got " ++ toString streamLen
    ++ " and " ++ toString colLen ++ " respectively."

/-- Inner loop of `add_label_fields_to_data` for one stream: for each label
field in declared order, compare lengths, then rebuild the stream with each
record's label value appended. Errors carry the dict state at raise time. -/
def addFieldLoop (name : String) : Data → List String → Except (Err × Data) Data
  | d, [] => .ok d
  | d, f :: fs =>
    match lookup d name, lookup d f with
    | some (.stream recs), some (.col vals) =>
        if recs.length = vals.length then
          addFieldLoop name
            (setKey d name (.stream (List.zipWith (fun r v => r ++ [v]) recs vals))) fs
        else .error (.valueError (lenMismatchMsg recs.length vals.length), d)
    | some (.stream _), none => .error (.keyError f, d)
    | some (.stream _), some _ =>
        .error (.typeError "label field value does not behave like a list", d)
    | _, _ => .error (.typeError "data field value is not a list of records", d)

/-- Outer loop of `add_label_fields_to_data` over `data_fields`: streams
absent from the sample are skipped. -/
def addStreamLoop (fields : List String) : Data → List String → Except (Err × Data) Data
  | d, [] => .ok d
  | d, name :: rest =>
    if (lookup d name).isSome then
      match addFieldLoop name d fields with
      | .ok d₁ => addStreamLoop fields d₁ rest
      | .error e => .error e
    else addStreamLoop fields d rest

/-- Embedding of `DataProcessor.add_label_fields_to_data`: a no-op when no
label fields are declared. -/
def add_label_fields_to_data (p : DataProcessor) (d : Data) : Except (Err × Data) Data :=
  match p.params.label_fields with
  | none => .ok d
  | some fields => addStreamLoop fields d p.data_fields

/-- Python negative indexing `r[-m]`: defined when `1 ≤ m ≤ r.length`,
yielding the element at position `r.length - m`; IndexError otherwise. -/
def pyNegGet (r : List Int) (m : Nat) : Option Int :=
  if 0 < m ∧ m ≤ r.length then r[r.length - m]? else none

/-- Python slice `r[:-L]`: drop the last `L` elements (all of them when the
record is shorter than `L`). -/
def stripRecord (L : Nat) (r : List Int) : List Int :=
  r.take (r.length - L)

/-- Column extraction in `remove_label_fields_from_data`: the comprehension
`[bbox[-L+idx] for bbox in recs]`, failing on any too-short record. -/
def extractCol (L idx : Nat) : List (List Int) → Option (List Int)
  | [] => some []
  | r :: rs =>
      match pyNegGet r (L - idx), extractCol L idx rs with
      | some v, some c => some (v :: c)
      | _, _ => none

/-- Inner loop of `remove_label_fields_from_data` for one stream: write each
label field's column, re-reading the stream each iteration as the source
does. -/
def removeFieldLoop (L : Nat) (name : String) :
    Data → Nat → List String → Except (Err × Data) Data
  | d, _, [] => .ok d
  | d, idx, f :: fs =>
    match lookup d name with
    | some (.stream recs) =>
        match extractCol L idx recs with
        | some c => removeFieldLoop L name (setKey d f (.col c)) (idx + 1) fs
        | none => .error (.indexError "list index out of range", d)
    | _ => .error (.typeError "data field value is not a list of records", d)

/-- Outer loop of `remove_label_fields_from_data`: for each present stream,
redistribute the label columns, then strip the trailing label values off
every record. -/
def removeStreamLoop (L : Nat) (fields : List String) :
    Data → List String → Except (Err × Data) Data
  | d, [] => .ok d
  | d, name :: rest =>
    if (lookup d name).isSome then
      match removeFieldLoop L name d 0 fields with
      | .ok d₁ =>
          match lookup d₁ name with
          | some (.stream recs) =>
              removeStreamLoop L fields
                (setKey d₁ name (.stream (recs.map (stripRecord L)))) rest
          | _ => .error (.typeError "data field value is not a list of records", d₁)
      | .error e => .error e
    else removeStreamLoop L fields d rest

/-- Embedding of `DataProcessor.remove_label_fields_from_data`: a no-op when
`label_fields` is `None` or empty (`if not self.params.label_fields`). -/
def remove_label_fields_from_data (p : DataProcessor) (d : Data) : Except (Err × Data) Data :=
  match p.params.label_fields with
  | none => .ok d
  | some [] => .ok d
  | some fields => removeStreamLoop fields.length fields d p.data_fields

/-- Reading `data["image"]` and taking its shape: KeyError when absent, and
`get_shape`'s RuntimeError when the value is not an image (a Python list
is neither a numpy array nor a tensor). -/
def getImageShape (d : Data) : Except Err (List Nat) :=
  match lookup d "image" with
  | some (.image i) => get_shape i
  | some (.stream _) => .error (.runtimeError (unsupportedImageMsg "<class 'list'>"))
  | some (.col _) => .error (.runtimeError (unsupportedImageMsg "<class 'list'>"))
  | none => .error (.keyError "image")

/-- The conversion loop shared by `preprocess` (`direction="to"`): each
present stream is replaced by `check_and_convert`'s result. -/
def convertLoop (p : DataProcessor) (shape : List Nat) (direction : String) :
    Data → List String → Except (Err × Data) Data
  | d, [] => .ok d
  | d, name :: rest =>
    match lookup d name with
    | some (.stream recs) =>
        match check_and_convert p recs shape direction with
        | .ok recs₁ => convertLoop p shape direction (setKey d name (.stream recs₁)) rest
        | .error e => .error (e, d)
    | some _ => .error (.typeError "data field value is not a list of records", d)
    | none => convertLoop p shape direction d rest

/-- Embedding of `DataProcessor.preprocess`: attach label fields, derive the
image shape, then convert every present stream in the `to` direction. -/
def preprocess (p : DataProcessor) (d : Data) : Except (Err × Data) Data :=
  match add_label_fields_to_data p d with
  | .error e => .error e
  | .ok d₁ =>
      match getImageShape d₁ with
      | .error e => .error (e, d₁)
      | .ok shape => convertLoop p shape "to" d₁ p.data_fields

/-- The filter-then-convert loop of `postprocess`: each present stream is
first replaced by `filter`'s result, then by `check_and_convert` in the
`from` direction. -/
def postLoop (p : DataProcessor) (shape : List Nat) :
    Data → List String → Except (Err × Data) Data
  | d, [] => .ok d
  | d, name :: rest =>
    match lookup d name with
    | some (.stream recs) =>
        let fd := p.filter recs shape
        let d₁ := setKey d name (.stream fd)
        match check_and_convert p fd shape "from" with
        | .ok recs₁ => postLoop p shape (setKey d₁ name (.stream recs₁)) rest
        | .error e => .error (e, d₁)
    | some _ => .error (.typeError "data field value is not a list of records", d)
    | none => postLoop p shape d rest

/-- Embedding of `DataProcessor.postprocess`: derive the image shape, filter
and convert every present stream, then strip label fields back out into
their own keys. -/
def postprocess (p : DataProcessor) (d : Data) : Except (Err × Data) Data :=
  match getImageShape d with
  | .error e => .error (e, d)
  | .ok shape =>
      match postLoop p shape d p.data_fields with
      | .ok d₁ => remove_label_fields_from_data p d₁
      | .error e => .error e

/-- Decidable equality for `Except`, so concrete pipeline runs can be
settled by `decide`. -/
instance instDecEqExcept {ε α : Type} [DecidableEq ε] [DecidableEq α] :
    DecidableEq (Except ε α)
  | .ok a, .ok b =>
      if h : a = b then .isTrue (h ▸ rfl) else .isFalse (fun hh => h (Except.ok.inj hh))
  | .ok _, .error _ => .isFalse (fun hh => Except.noConfusion hh)
  | .error _, .ok _ => .isFalse (fun hh => Except.noConfusion hh)
  | .error e, .error f =>
      if h : e = f then .isTrue (h ▸ rfl) else .isFalse (fun hh => h (Except.error.inj hh))

/-- Modelled from the spec: the constant `PAIR` imported from the types
module (not under the sources given here); per `to_tuple`'s own docstring a
pair is "a sequence of exactly 2 scalars". -/
def PAIR : Nat := 2

/-- A Python value that `to_tuple` may receive as `param`: a numeric scalar
(int or float, modelled as a rational), a numeric sequence (list or tuple),
or a string — strings are Python `Sequence`s of characters. -/
inductive TParam where
  | num (q : ℚ)
  | seq (l : List ℚ)
  | str (s : String)
deriving DecidableEq

/-- A component of `to_tuple`'s result: a number, or a character when the
input was a 2-character string. -/
inductive TVal where
  | q (x : ℚ)
  | c (ch : Char)
deriving DecidableEq

/-- The min/max pair of a 2-element sequence, per branch of `to_tuple`. -/
def pairMinMax : TParam → Option (TVal × TVal)
  | .seq [a, b] => some (.q (min a b), .q (max a b))
  | .str s =>
      match s.data with
      | [c₁, c₂] => some (if c₁ ≤ c₂ then (.c c₁, .c c₂) else (.c c₂, .c c₁))
      | _ => none
  | _ => none

/-- Whether a `TParam` is a Python `Sequence` of length `PAIR` — lists,
tuples and strings are sequences; ints and floats are not. -/
def isPairSeq : TParam → Bool
  | .num _ => false
  | .seq l => l.length = PAIR
  | .str s => s.length = PAIR

/-- Whether a `TParam` is a Python scalar, i.e. an int or float. -/
def isScalar : TParam → Bool
  | .num _ => true
  | _ => false

/-- Embedding of `to_tuple`: reject `low` and `bias` together; take min/max
of a 2-element sequence; order `(low, param)` for a scalar with numeric
`low`; produce the symmetric pair `(-param, param)` for a bare scalar;
reject any other shape; finally shift both endpoints by `bias` (a
TypeError when the endpoints are not numbers). -/
def to_tuple (param : TParam) (low : Option ℚ) (bias : Option ℚ) :
    Except Err (TVal × TVal) :=
  if low.isSome ∧ bias.isSome then
    .error (.valueError "Arguments 'low' and 'bias' cannot be used together.")
  else
    let core : Except Err (TVal × TVal) :=
      if isPairSeq param then
        match pairMinMax param with
        | some mm => .ok mm
        | none => .error (.valueError "Argument 'param' must be either a scalar or a sequence of 2 elements.")
      else
        match param with
        | .num x =>
            match low with
            | some lo => .ok (if lo < x then (.q lo, .q x) else (.q x, .q lo))
            | none => .ok (.q (-x), .q x)
        | _ => .error (.valueError "Argument 'param' must be either a scalar or a sequence of 2 elements.")
    match bias with
    | none => core
    | some b =>
        match core with
        | .ok (.q mn, .q mx) => .ok (.q (b + mn), .q (b + mx))
        | .ok _ => .error (.typeError "unsupported operand type for +")
        | .error e => .error e

/-- Specification-side description of `add_targets`' acceptance rule:
exactly the alias names whose target equals the default stream name and
that are not already present (including names accepted just before), in
iteration order. -/
def acceptedNew (default : String) (existing : List String) :
    List (String × String) → List String
  | [] => []
  | (k, v) :: rest =>
      if v = default ∧ ¬ k ∈ existing then k :: acceptedNew default (existing ++ [k]) rest
      else acceptedNew default existing rest

/-- Attaching a list of label columns to a stream, one column at a time, as
the field loop of `add_label_fields_to_data` does. -/
def attachCols (recs : List (List Int)) : List (List Int) → List (List Int)
  | [] => recs
  | c :: cs => attachCols (List.zipWith (fun r v => r ++ [v]) recs c) cs

/-- The trailing label value of a record at field offset `idx` out of `L`
label fields: the element `L - idx` positions from the end. -/
def tailAt (L idx : Nat) (r : List Int) : Int :=
  r.getD (r.length - (L - idx)) 0

/-- The last name of the list that is present as a key of the sample — the
stream whose labels survive `remove_label_fields_from_data`'s overwriting. -/
def lastPresent (d : Data) : List String → Option String
  | [] => none
  | n :: rest =>
      match lastPresent d rest with
      | some m => some m
      | none => if (lookup d n).isSome then some n else none

/-- The length of the label column stored under a key (0 when the key does
not hold a column). -/
def colLen (d : Data) (f : String) : Nat :=
  match lookup d f with
  | some (.col vals) => vals.length
  | _ => 0

/-- The first declared label field whose column length differs from the
given stream length, returning that column length. -/
def firstBadField (d : Data) (streamLen : Nat) : List String → Option Nat
  | [] => none
  | f :: fs => if colLen d f ≠ streamLen then some (colLen d f) else firstBadField d streamLen fs

/-- The first (stream, field) length mismatch that
`add_label_fields_to_data` meets in iteration order, as the pair of lengths
its error message will name. -/
def findMismatch (d : Data) (fields : List String) : List String → Option (Nat × Nat)
  | [] => none
  | name :: rest =>
      match lookup d name with
      | some (.stream recs) =>
          match firstBadField d recs.length fields with
          | some m => some (recs.length, m)
          | none => findMismatch d fields rest
      | _ => findMismatch d fields rest

/-- The label column stored under a key, or `[]` when the key does not hold
a column. -/
def colOf (d : Data) (f : String) : List Int :=
  match lookup d f with
  | some (.col vals) => vals
  | _ => []

/-- The length of the annotation stream stored under a key, or `none` when
the key does not hold a stream. -/
def streamLen? (d : Data) (m : String) : Option Nat :=
  match lookup d m with
  | some (.stream recs) => some recs.length
  | _ => none

/-- A concrete processor on the canonical format, with two label fields and
its single default stream; filter keeps everything and check always
passes. -/
def procW : DataProcessor :=
  { params := { format := "albumentations", label_fields := some ["f1", "f2"] }
    default_data_name := "bboxes"
    data_fields := ["bboxes"]
    filter := fun l _ => l
    check := fun _ _ => .ok ()
    convert_to_albumentations := fun l _ => .ok l
    convert_from_albumentations := fun l _ => .ok l }

/-- A concrete well-formed sample for `procW`. -/
def sampleW : Data :=
  [("image", .image (.ndarray [4, 4, 3])),
   ("bboxes", .stream [[1, 2], [3, 4]]),
   ("f1", .col [7, 8]),
   ("f2", .col [9, 10])]

/-- The label columns of `sampleW` as a function of the field name. -/
def colFnW : String → List Int := fun f => if f = "f1" then [7, 8] else [9, 10]

/-- A sample for `procW` whose second label column has the wrong length:
the first field is attached before the mismatch on the second is noticed. -/
def sampleBad : Data :=
  [("image", .image (.ndarray [4, 4, 3])),
   ("bboxes", .stream [[1, 2]]),
   ("f1", .col [7]),
   ("f2", .col [])]

/-- A processor with an additional target stream aliased to the default
one, and a single label field. -/
def procTwo : DataProcessor :=
  { params := { format := "albumentations", label_fields := some ["cls"] }
    default_data_name := "bboxes"
    data_fields := ["bboxes", "extra"]
    filter := fun l _ => l
    check := fun _ _ => .ok ()
    convert_to_albumentations := fun l _ => .ok l
    convert_from_albumentations := fun l _ => .ok l }

/-- A post-transform sample for `procTwo` in which the two streams carry
different trailing label values (7 for `bboxes`, 9 for `extra`). -/
def sampleTwo : Data :=
  [("image", .image (.ndarray [4, 4, 3])),
   ("bboxes", .stream [[1, 2, 7]]),
   ("extra", .stream [[3, 4, 9]]),
   ("cls", .col [0])]

/-! ## Dictionary lemmas -/

theorem lookup_setKey_self (d : Data) (k : String) (v : Entry) :
    lookup (setKey d k v) k = some v := by
  induction d with
  | nil => simp [setKey, lookup]
  | cons hd tl ih =>
      obtain ⟨k', w⟩ := hd
      by_cases h : k' = k <;> simp [setKey, lookup, h, ih]

theorem lookup_setKey_ne (d : Data) (k k' : String) (v : Entry) (h : k' ≠ k) :
    lookup (setKey d k v) k' = lookup d k' := by
  have h' : ¬ k = k' := fun hh => h hh.symm
  induction d with
  | nil => simp [setKey, lookup, h']
  | cons hd tl ih =>
      obtain ⟨k₀, w⟩ := hd
      by_cases hk : k₀ = k
      · subst hk
        simp [setKey, lookup, h']
      · simp [setKey, lookup, hk, ih]

theorem setKey_eq_of_lookup (d : Data) (k : String) (v : Entry)
    (h : lookup d k = some v) : setKey d k v = d := by
  induction d with
  | nil => simp [lookup] at h
  | cons hd tl ih =>
      obtain ⟨k₀, w⟩ := hd
      by_cases hk : k₀ = k
      · subst hk
        simp [lookup] at h
        simp [setKey, h]
      · simp [lookup, hk] at h
        simp [setKey, hk, ih h]

/-! ## C4: add_targets -/

/-- C4: `add_targets` appends to `data_fields` exactly the alias names
whose target equals the processor's default stream name and that are not
already present, in iteration order, and changes nothing else — duplicate
or unrelated aliases are silently skipped and no error is possible. -/
theorem c4_add_targets (p : DataProcessor) (ts : List (String × String)) :
    add_targets p ts =
      { p with data_fields :=
          p.data_fields ++ acceptedNew p.default_data_name p.data_fields ts } := by
  induction ts generalizing p with
  | nil => simp [add_targets, acceptedNew]
  | cons kv rest ih =>
      obtain ⟨k, v⟩ := kv
      have step : add_targets p ((k, v) :: rest) =
          add_targets
            (if v = p.default_data_name ∧ ¬ k ∈ p.data_fields then
              { p with data_fields := p.data_fields ++ [k] }
            else p) rest := rfl
      by_cases h : v = p.default_data_name ∧ ¬ k ∈ p.data_fields
      · rw [step, if_pos h, ih]
        simp [acceptedNew, h.1, h.2, List.append_assoc]
      · rw [step, if_neg h, ih]
        by_cases h1 : v = p.default_data_name
        · have h2 : k ∈ p.data_fields := by
            by_contra hc
            exact h ⟨h1, hc⟩
          simp [acceptedNew, h1, h2]
        · simp [acceptedNew, h1]

/-! ## C5 and C10: check_and_convert on the canonical format -/

/-- C5: when the declared format is the canonical name `"albumentations"`,
`check_and_convert` only validates — on success it returns the record list
unchanged, on failure it propagates `check`'s error — and the converters
are never consulted, in either direction. -/
theorem c5_canonical_validation_only (p : DataProcessor) (data : List (List Int))
    (shape : List Nat) (direction : String)
    (h : p.params.format = "albumentations") :
    (p.check data shape = .ok () → check_and_convert p data shape direction = .ok data)
  ∧ (∀ e, p.check data shape = .error e →
      check_and_convert p data shape direction = .error e)
  ∧ (∀ f g, check_and_convert
      { p with convert_to_albumentations := f, convert_from_albumentations := g }
      data shape direction = check_and_convert p data shape direction) := by
  refine ⟨?_, ?_, ?_⟩
  · intro hc
    simp [check_and_convert, h, hc]
  · intro e hc
    simp [check_and_convert, h, hc]
  · intro f g
    simp [check_and_convert, h]

/-- Witness for C5 at a concrete processor and sample. -/
theorem c5_canonical_validation_only_witness :
    (DataProcessor.mk ⟨"albumentations", none⟩ "bboxes" ["bboxes"]
        (fun l _ => l) (fun _ _ => .ok ()) (fun l _ => .ok l) (fun l _ => .ok l)).params.format
      = "albumentations"
  ∧ check_and_convert
      (DataProcessor.mk ⟨"albumentations", none⟩ "bboxes" ["bboxes"]
        (fun l _ => l) (fun _ _ => .ok ()) (fun l _ => .ok l) (fun l _ => .ok l))
      [[1, 2]] [4, 4] "from" = .ok [[1, 2]] :=
  ⟨rfl,
    (c5_canonical_validation_only
      (DataProcessor.mk ⟨"albumentations", none⟩ "bboxes" ["bboxes"]
        (fun l _ => l) (fun _ _ => .ok ()) (fun l _ => .ok l) (fun l _ => .ok l))
      [[1, 2]] [4, 4] "from" rfl).1 rfl⟩

/-- C10: with the canonical format the result of `check_and_convert` is
determined by `check` alone for every direction token — the canonical
branch returns before the direction is examined, so the invalid-direction
error can only be observed if `check` itself produced that very value; and
with a non-canonical format an unknown direction token does produce the
invalid-direction error. -/
theorem c10_invalid_direction_unreachable_when_canonical (p : DataProcessor)
    (data : List (List Int)) (shape : List Nat) :
    (p.params.format = "albumentations" →
      ∀ direction, check_and_convert p data shape direction =
        match p.check data shape with
        | .ok _ => .ok data
        | .error e => .error e)
  ∧ (p.params.format = "albumentations" →
      ∀ direction, check_and_convert p data shape direction =
          .error (.valueError (invalidDirectionMsg direction)) →
        p.check data shape = .error (.valueError (invalidDirectionMsg direction)))
  ∧ (p.params.format ≠ "albumentations" →
      ∀ direction, direction ≠ "to" → direction ≠ "from" →
        check_and_convert p data shape direction =
          .error (.valueError (invalidDirectionMsg direction))) := by
  refine ⟨?_, ?_, ?_⟩
  · intro h direction
    cases hc : p.check data shape <;> simp [check_and_convert, h, hc]
  · intro h direction hres
    cases hc : p.check data shape with
    | error e =>
        simp [check_and_convert, h, hc] at hres
        rw [hres]
    | ok u =>
        simp [check_and_convert, h, hc] at hres
  · intro h direction h1 h2
    simp [check_and_convert, h, h1, h2]

/-- Witness for C10 at a concrete processor, sample and direction token. -/
theorem c10_invalid_direction_unreachable_when_canonical_witness :
    check_and_convert
      (DataProcessor.mk ⟨"albumentations", none⟩ "bboxes" ["bboxes"]
        (fun l _ => l) (fun _ _ => .ok ()) (fun l _ => .ok l) (fun l _ => .ok l))
      [[5]] [2, 2] "sideways" =
      match (fun (_ : List (List Int)) (_ : List Nat) => (.ok () : Except Err Unit)) [[5]] [2, 2] with
      | .ok _ => .ok [[5]]
      | .error e => .error e :=
  (c10_invalid_direction_unreachable_when_canonical
    (DataProcessor.mk ⟨"albumentations", none⟩ "bboxes" ["bboxes"]
      (fun l _ => l) (fun _ _ => .ok ()) (fun l _ => .ok l) (fun l _ => .ok l))
    [[5]] [2, 2]).1 rfl "sideways"

/-! ## C6, C7, C8: to_tuple -/

/-- C6: the six specified input/output examples of `to_tuple`:
`to_tuple(5) = (-5, 5)`, `to_tuple(5, low=2) = (2, 5)`,
`to_tuple((3,1)) = (1, 3)`, `to_tuple(4, bias=10) = (6, 14)`,
`to_tuple(5, low=2, bias=1)` raises an invalid-argument error, and
`to_tuple("x")` raises an invalid-argument error. -/
theorem c6_to_tuple_examples :
    to_tuple (.num 5) none none = .ok (.q (-5), .q 5)
  ∧ to_tuple (.num 5) (some 2) none = .ok (.q 2, .q 5)
  ∧ to_tuple (.seq [3, 1]) none none = .ok (.q 1, .q 3)
  ∧ to_tuple (.num 4) none (some 10) = .ok (.q 6, .q 14)
  ∧ to_tuple (.num 5) (some 2) (some 1)
      = .error (.valueError "Arguments 'low' and 'bias' cannot be used together.")
  ∧ to_tuple (.str "x") none none
      = .error (.valueError
          "Argument 'param' must be either a scalar or a sequence of 2 elements.") := by
  refine ⟨?_, ?_, ?_, ?_, ?_, ?_⟩
  · simp [to_tuple, isPairSeq]
  · norm_num [to_tuple, isPairSeq]
  · norm_num [to_tuple, isPairSeq, PAIR, pairMinMax]
  · norm_num [to_tuple, isPairSeq]
  · norm_num [to_tuple]
  · decide

/-- Counterexample to C7: `to_tuple` succeeds on the scalar `-1` with
neither `low` nor `bias`, yet returns `(1, -1)`, whose first element is
strictly greater than its second — not a canonical `(min, max)` pair. -/
theorem c7_counterexample :
    to_tuple (.num (-1)) none none = .ok (.q 1, .q (-1)) ∧ ¬ ((1 : ℚ) ≤ -1) := by
  constructor
  · norm_num [to_tuple, isPairSeq]
  · norm_num

/-- C7, amended: the returned pair is sorted when the input is a 2-element
numeric sequence, and when the input is a scalar with a numeric `low`; a
bare scalar (no `low`) yields the symmetric pair `(-s, s)` — shifted by
`bias` when given — which is sorted only for nonnegative `s`. -/
theorem c7_minmax_amended :
    (∀ (a b : ℚ) (low bias : Option ℚ) (r : TVal × TVal),
      to_tuple (.seq [a, b]) low bias = .ok r → ∃ x y, r = (.q x, .q y) ∧ x ≤ y)
  ∧ (∀ (s lo : ℚ) (bias : Option ℚ) (r : TVal × TVal),
      to_tuple (.num s) (some lo) bias = .ok r → ∃ x y, r = (.q x, .q y) ∧ x ≤ y)
  ∧ (∀ s : ℚ, to_tuple (.num s) none none = .ok (.q (-s), .q s))
  ∧ (∀ s b : ℚ, to_tuple (.num s) none (some b) = .ok (.q (b + -s), .q (b + s))) := by
  refine ⟨?_, ?_, ?_, ?_⟩
  · intro a b low bias r h
    cases low with
    | none =>
        cases bias with
        | none =>
            simp [to_tuple, isPairSeq, PAIR, pairMinMax] at h
            exact ⟨min a b, max a b, h.symm, min_le_max⟩
        | some bv =>
            simp [to_tuple, isPairSeq, PAIR, pairMinMax] at h
            exact ⟨bv + min a b, bv + max a b, h.symm, by
              exact add_le_add_left min_le_max bv⟩
    | some lo =>
        cases bias with
        | none =>
            simp [to_tuple, isPairSeq, PAIR, pairMinMax] at h
            exact ⟨min a b, max a b, h.symm, min_le_max⟩
        | some bv => simp [to_tuple] at h
  · intro s lo bias r h
    cases bias with
    | none =>
        by_cases hlt : lo < s
        · simp [to_tuple, isPairSeq, hlt] at h
          exact ⟨lo, s, h.symm, le_of_lt hlt⟩
        · simp [to_tuple, isPairSeq, hlt] at h
          exact ⟨s, lo, h.symm, le_of_not_lt hlt⟩
    | some bv => simp [to_tuple] at h
  · intro s
    simp [to_tuple, isPairSeq]
  · intro s b
    simp [to_tuple, isPairSeq]

/-- Witness for C7 (amended) at concrete inputs. -/
theorem c7_minmax_amended_witness :
    (∃ x y, ((.q 1, .q 3) : TVal × TVal) = (.q x, .q y) ∧ x ≤ y)
  ∧ to_tuple (.num 4) none none = .ok (.q (-4), .q 4) :=
  ⟨c7_minmax_amended.1 3 1 none none (.q 1, .q 3)
      (by norm_num [to_tuple, isPairSeq, PAIR, pairMinMax]),
    c7_minmax_amended.2.2.1 4⟩

/-- C8: `to_tuple` fails with the mutual-exclusion ValueError whenever both
`low` and `bias` are supplied — before any derivation, for every `param`
value including invalid ones — and fails with a ValueError whenever `param`
is neither a scalar nor a 2-element sequence. -/
theorem c8_to_tuple_rejections :
    (∀ (param : TParam) (low bias : Option ℚ),
      low.isSome = true → bias.isSome = true →
      to_tuple param low bias =
        .error (.valueError "Arguments 'low' and 'bias' cannot be used together."))
  ∧ (∀ (param : TParam) (low bias : Option ℚ),
      isScalar param = false → isPairSeq param = false →
      ∃ msg, to_tuple param low bias = .error (.valueError msg)) := by
  constructor
  · intro param low bias h1 h2
    simp [to_tuple, h1, h2]
  · intro param low bias h1 h2
    by_cases hb : low.isSome = true ∧ bias.isSome = true
    · exact ⟨"Arguments 'low' and 'bias' cannot be used together.",
        by simp [to_tuple, hb.1, hb.2]⟩
    · refine ⟨"Argument 'param' must be either a scalar or a sequence of 2 elements.", ?_⟩
      cases param with
      | num q => simp [isScalar] at h1
      | seq l =>
          cases bias with
          | none => simp [to_tuple, h2]
          | some bv =>
              have hl : low = none := by
                cases low with
                | none => rfl
                | some lv => exact absurd ⟨rfl, rfl⟩ hb
              subst hl
              simp [to_tuple, h2]
      | str s =>
          cases bias with
          | none => simp [to_tuple, h2]
          | some bv =>
              have hl : low = none := by
                cases low with
                | none => rfl
                | some lv => exact absurd ⟨rfl, rfl⟩ hb
              subst hl
              simp [to_tuple, h2]

/-- Witness for C8 at concrete inputs. -/
theorem c8_to_tuple_rejections_witness :
    to_tuple (.num 5) (some 2) (some 1)
      = .error (.valueError "Arguments 'low' and 'bias' cannot be used together.")
  ∧ ∃ msg, to_tuple (.str "x") none none = .error (.valueError msg) :=
  ⟨c8_to_tuple_rejections.1 (.num 5) (some 2) (some 1) rfl rfl,
    c8_to_tuple_rejections.2 (.str "x") none none rfl (by decide)⟩

/-! ## C9: get_shape -/

/-- C9: `get_shape` returns the first two dimensions of a numpy array and
the last two dimensions of a torch tensor, and on any other value fails
with an error whose message names the unsupported type. -/
theorem c9_get_shape :
    (∀ s, get_shape (.ndarray s) = .ok (s.take 2))
  ∧ (∀ s, get_shape (.tensor s) = .ok (s.drop (s.length - 2)))
  ∧ (∀ t, ∃ pre post, get_shape (.other t) = .error (.runtimeError (pre ++ t ++ post))) := by
  refine ⟨fun s => rfl, fun s => rfl, fun t => ?_⟩
  refine ⟨"Albumentations supports only numpy.ndarray and torch.Tensor data type for image. Got: ",
    "", ?_⟩
  simp [get_shape, unsupportedImageMsg]

/-! ## Attach/strip/extract lemmas for label columns -/

theorem setKey_setKey (d : Data) (k : String) (v w : Entry) :
    setKey (setKey d k v) k w = setKey d k w := by
  induction d with
  | nil => simp [setKey]
  | cons hd tl ih =>
      obtain ⟨k₀, u⟩ := hd
      by_cases hk : k₀ = k <;> simp [setKey, hk, ih]

theorem attachCols_nil (cols : List (List Int)) : attachCols [] cols = [] := by
  induction cols with
  | nil => rfl
  | cons c cs ih => simpa [attachCols] using ih

theorem attachCols_cons (r : List Int) (rs cols : List (List Int))
    (h : ∀ c ∈ cols, 0 < c.length) :
    attachCols (r :: rs) cols =
      (r ++ cols.map (fun c => c.headD 0)) :: attachCols rs (cols.map List.tail) := by
  induction cols generalizing r rs with
  | nil => simp [attachCols]
  | cons c cs ih =>
      cases c with
      | nil => exact absurd (h [] (by simp)) (by simp)
      | cons v vs =>
          have step : attachCols (r :: rs) ((v :: vs) :: cs)
              = attachCols ((r ++ [v]) :: List.zipWith (fun a b => a ++ [b]) rs vs) cs := rfl
          rw [step, ih (r ++ [v]) (List.zipWith (fun a b => a ++ [b]) rs vs)
            (fun c hc => h c (by simp [hc]))]
          simp only [List.map_cons, List.headD_cons, List.tail_cons]
          rw [show attachCols rs (vs :: List.map List.tail cs)
              = attachCols (List.zipWith (fun a b => a ++ [b]) rs vs) (List.map List.tail cs)
              from rfl]
          rw [List.append_assoc, List.singleton_append]

theorem attachCols_length : ∀ (cols recs : List (List Int)),
    (∀ c ∈ cols, c.length = recs.length) → (attachCols recs cols).length = recs.length
  | [], recs, _ => rfl
  | c :: cs, recs, h => by
      have hz : (List.zipWith (fun a b => a ++ [b]) recs c).length = recs.length := by
        simp [List.length_zipWith, h c (by simp)]
      have := attachCols_length cs (List.zipWith (fun a b => a ++ [b]) recs c)
        (fun c' hc' => by rw [h c' (by simp [hc']), ← hz])
      rw [show attachCols recs (c :: cs)
          = attachCols (List.zipWith (fun a b => a ++ [b]) recs c) cs from rfl, this, hz]

theorem strip_attach (L : Nat) : ∀ (recs cols : List (List Int)),
    cols.length = L → (∀ c ∈ cols, c.length = recs.length) →
    (attachCols recs cols).map (stripRecord L) = recs := by
  intro recs
  induction recs with
  | nil => intro cols _ _; simp [attachCols_nil]
  | cons r rs ih =>
      intro cols h1 h2
      rw [attachCols_cons r rs cols (fun c hc => by rw [h2 c hc]; simp)]
      have hlen : (cols.map (fun c => c.headD 0)).length = L := by
        simpa using h1
      have hstrip : stripRecord L (r ++ cols.map (fun c => c.headD 0)) = r := by
        unfold stripRecord
        rw [List.length_append, hlen, Nat.add_sub_cancel, List.take_left]
      rw [List.map_cons, hstrip,
        ih (cols.map List.tail) (by simpa using h1)
          (fun c hc => by
            obtain ⟨c₀, hc₀, rfl⟩ := List.mem_map.1 hc
            have := h2 c₀ hc₀
            simp [List.length_tail, this])]

theorem pyNegGet_eq (r : List Int) (m : Nat) (h1 : 0 < m) (h2 : m ≤ r.length) :
    pyNegGet r m = some (r.getD (r.length - m) 0) := by
  have hpos : r.length - m < r.length := by omega
  rw [pyNegGet, if_pos ⟨h1, h2⟩, List.getElem?_eq_getElem hpos,
    List.getD_eq_getElem?_getD, List.getElem?_eq_getElem hpos]
  rfl

theorem extract_attach (L : Nat) : ∀ (recs cols : List (List Int)) (idx : Nat),
    cols.length = L → (∀ c ∈ cols, c.length = recs.length) → idx < L →
    extractCol L idx (attachCols recs cols) = some (cols.getD idx []) := by
  intro recs
  induction recs with
  | nil =>
      intro cols idx h1 h2 h3
      have hmem : cols.getD idx [] ∈ cols := by
        rw [List.getD_eq_getElem?_getD, List.getElem?_eq_getElem (by omega : idx < cols.length)]
        exact List.getElem_mem _
      have : (cols.getD idx []).length = 0 := by simpa using h2 _ hmem
      rw [attachCols_nil, List.length_eq_zero.1 this]
      rfl
  | cons r rs ih =>
      intro cols idx h1 h2 h3
      have hidx : idx < cols.length := by omega
      have hnonnil : 0 < (cols[idx]).length := by
        rw [h2 _ (List.getElem_mem hidx)]
        simp
      rw [attachCols_cons r rs cols (fun c hc => by rw [h2 c hc]; simp)]
      have hheads : (cols.map (fun c => c.headD 0)).length = L := by simpa using h1
      have hfirst : pyNegGet (r ++ cols.map (fun c => c.headD 0)) (L - idx)
          = some ((cols[idx]).headD 0) := by
        rw [pyNegGet_eq _ _ (by omega)
          (by rw [List.length_append, hheads]; omega)]
        congr 1
        rw [List.length_append, hheads]
        have hpos : r.length + L - (L - idx) = r.length + idx := by omega
        rw [hpos, List.getD_eq_getElem?_getD, List.getElem?_append_right (by omega),
          Nat.add_sub_cancel_left,
          List.getElem?_eq_getElem (by rw [hheads]; omega)]
        simp
      have hrest : extractCol L idx (attachCols rs (cols.map List.tail))
          = some ((cols.map List.tail).getD idx []) := by
        refine ih (cols.map List.tail) idx (by simpa using h1) ?_ h3
        intro c hc
        obtain ⟨c₀, hc₀, rfl⟩ := List.mem_map.1 hc
        have := h2 c₀ hc₀
        simp [List.length_tail, this]
      have htail : (cols.map List.tail).getD idx [] = (cols[idx]).tail := by
        rw [List.getD_eq_getElem?_getD, List.getElem?_eq_getElem (by simpa using hidx)]
        simp
      have hcons : (cols[idx]).headD 0 :: (cols[idx]).tail = cols[idx] := by
        cases hcl : cols[idx] with
        | nil => rw [hcl] at hnonnil; simp at hnonnil
        | cons a as => simp
      rw [extractCol, hfirst, hrest, htail]
      show some ((cols[idx]).headD 0 :: (cols[idx]).tail) = some (cols.getD idx [])
      rw [hcons, List.getD_eq_getElem?_getD, List.getElem?_eq_getElem hidx]
      rfl

theorem extractCol_eq_map (L idx : Nat) (hidx : idx < L) : ∀ recs : List (List Int),
    (∀ r ∈ recs, L ≤ r.length) →
    extractCol L idx recs = some (recs.map (tailAt L idx)) := by
  intro recs
  induction recs with
  | nil => intro _; rfl
  | cons r rs ih =>
      intro h
      have hr : pyNegGet r (L - idx) = some (tailAt L idx r) := by
        rw [pyNegGet_eq _ _ (by omega) (le_trans (by omega) (h r (by simp)))]
        rfl
      rw [extractCol, hr, ih (fun r' hr' => h r' (by simp [hr']))]
      rfl

/-! ## Loop lemmas for add_label_fields_to_data -/

theorem addFieldLoop_ok (name : String) (colFn : String → List Int) :
    ∀ (fs : List String) (d : Data) (recs : List (List Int)),
    lookup d name = some (.stream recs) → name ∉ fs →
    (∀ f ∈ fs, lookup d f = some (.col (colFn f)) ∧ (colFn f).length = recs.length) →
    addFieldLoop name d fs
      = .ok (setKey d name (.stream (attachCols recs (List.map colFn fs)))) := by
  intro fs
  induction fs with
  | nil =>
      intro d recs h _ _
      rw [show List.map colFn ([] : List String) = [] from rfl,
        show attachCols recs [] = recs from rfl, setKey_eq_of_lookup d name _ h]
      rfl
  | cons f fs' ih =>
      intro d recs h hnm hcols
      obtain ⟨hf, hlen⟩ := hcols f (by simp)
      have hnamef : name ≠ f := fun hh => hnm (hh ▸ List.mem_cons_self _ _)
      have hnm' : name ∉ fs' := fun hh => hnm (List.mem_cons_of_mem _ hh)
      have hstep : addFieldLoop name d (f :: fs')
          = addFieldLoop name
              (setKey d name
                (.stream (List.zipWith (fun r v => r ++ [v]) recs (colFn f)))) fs' := by
        simp only [addFieldLoop, h, hf]
        rw [if_pos hlen.symm]
      have hlen₁ : (List.zipWith (fun r v => r ++ [v]) recs (colFn f)).length = recs.length := by
        simp [List.length_zipWith, hlen]
      rw [hstep,
        ih (setKey d name (.stream (List.zipWith (fun r v => r ++ [v]) recs (colFn f))))
          (List.zipWith (fun r v => r ++ [v]) recs (colFn f))
          (lookup_setKey_self _ _ _) hnm'
          (fun f' hf' => by
            have hne : f' ≠ name := fun hh => hnm' (hh ▸ hf')
            obtain ⟨hc, hl⟩ := hcols f' (List.mem_cons_of_mem _ hf')
            exact ⟨by rw [lookup_setKey_ne _ _ _ _ hne, hc], by rw [hl, hlen₁]⟩),
        setKey_setKey]
      rw [show List.map colFn (f :: fs') = colFn f :: List.map colFn fs' from rfl,
        show attachCols recs (colFn f :: List.map colFn fs')
          = attachCols (List.zipWith (fun r v => r ++ [v]) recs (colFn f))
              (List.map colFn fs') from rfl]

theorem addStreamLoop_ok (fs : List String) (colFn : String → List Int) :
    ∀ (names : List String) (d : Data),
    names.Nodup →
    (∀ n ∈ names, n ∉ fs) →
    (∀ n ∈ names, ∀ e, lookup d n = some e →
      ∃ recs, e = .stream recs ∧
        (∀ f ∈ fs, lookup d f = some (.col (colFn f)) ∧ (colFn f).length = recs.length)) →
    ∃ d', addStreamLoop fs d names = .ok d'
      ∧ (∀ k, k ∉ names → lookup d' k = lookup d k)
      ∧ (∀ n ∈ names,
          (lookup d n = none → lookup d' n = none)
        ∧ (∀ recs, lookup d n = some (.stream recs) →
            lookup d' n = some (.stream (attachCols recs (List.map colFn fs))))) := by
  intro names
  induction names with
  | nil =>
      intro d _ _ _
      exact ⟨d, rfl, fun _ _ => rfl, fun n hn => (List.not_mem_nil n hn).elim⟩
  | cons n rest ih =>
      intro d hnd hdisj hwf
      have hnrest : n ∉ rest := (List.nodup_cons.1 hnd).1
      have hrestnd : rest.Nodup := (List.nodup_cons.1 hnd).2
      cases he : lookup d n with
      | none =>
          have hstep : addStreamLoop fs d (n :: rest) = addStreamLoop fs d rest := by
            simp only [addStreamLoop, he, Option.isSome_none]
            rfl
          obtain ⟨d', hrun, hother, hmem⟩ := ih d hrestnd
            (fun m hm => hdisj m (List.mem_cons_of_mem _ hm))
            (fun m hm => hwf m (List.mem_cons_of_mem _ hm))
          refine ⟨d', hstep ▸ hrun, fun k hk => hother k (fun hh => hk (List.mem_cons_of_mem _ hh)),
            fun m hm => ?_⟩
          rcases List.mem_cons.1 hm with rfl | hm'
          · exact ⟨fun _ => by rw [hother m hnrest, he],
              fun recs hrecs => by rw [he] at hrecs; exact absurd hrecs (by simp)⟩
          · exact hmem m hm'
      | some e =>
          obtain ⟨recs, rfl, hcols⟩ := hwf n (by simp) e he
          have hnfs : n ∉ fs := hdisj n (by simp)
          have hadd := addFieldLoop_ok n colFn fs d recs he hnfs hcols
          have hstep : addStreamLoop fs d (n :: rest)
              = addStreamLoop fs
                  (setKey d n (.stream (attachCols recs (List.map colFn fs)))) rest := by
            simp only [addStreamLoop, he, Option.isSome_some, hadd]
            rfl
          set d₁ := setKey d n (.stream (attachCols recs (List.map colFn fs))) with hd₁
          have hlook₁ : ∀ k, k ≠ n → lookup d₁ k = lookup d k :=
            fun k hk => lookup_setKey_ne _ _ _ _ hk
          obtain ⟨d', hrun, hother, hmem⟩ := ih d₁ hrestnd
            (fun m hm => hdisj m (List.mem_cons_of_mem _ hm))
            (fun m hm e' he' => by
              have hmn : m ≠ n := fun hh => hnrest (hh ▸ hm)
              rw [hlook₁ m hmn] at he'
              obtain ⟨recs', hrv, hcols'⟩ := hwf m (List.mem_cons_of_mem _ hm) e' he'
              refine ⟨recs', hrv, fun f hf => ?_⟩
              have hfn : f ≠ n := fun hh => hnfs (hh ▸ hf)
              obtain ⟨hc, hl⟩ := hcols' f hf
              exact ⟨by rw [hlook₁ f hfn, hc], hl⟩)
          refine ⟨d', hstep ▸ hrun, fun k hk => ?_, fun m hm => ?_⟩
          · have hkrest : k ∉ rest := fun hh => hk (List.mem_cons_of_mem _ hh)
            have hkn : k ≠ n := fun hh => hk (hh ▸ List.mem_cons_self _ _)
            rw [hother k hkrest, hlook₁ k hkn]
          · rcases List.mem_cons.1 hm with rfl | hm'
            · refine ⟨fun hnone => by rw [hnone] at he; exact Option.noConfusion he,
                fun recs' hrecs => ?_⟩
              rw [he] at hrecs
              have : recs' = recs := (Entry.stream.inj (Option.some.inj hrecs)).symm
              subst this
              rw [hother m hnrest, hd₁, lookup_setKey_self]
            · obtain ⟨habr, hpres⟩ := hmem m hm'
              have hmn : m ≠ n := fun hh => hnrest (hh ▸ hm')
              exact ⟨fun hh => habr (by rw [hlook₁ m hmn, hh]),
                fun recs' hrecs => hpres recs' (by rw [hlook₁ m hmn, hrecs])⟩

/-! ## Loop lemmas for the conversion passes on the canonical format -/

theorem convertLoop_canonical_id (p : DataProcessor) (shape : List Nat) (direction : String)
    (hfmt : p.params.format = "albumentations")
    (hcheck : ∀ l s, p.check l s = .ok ()) :
    ∀ (names : List String) (d : Data),
    (∀ n ∈ names, ∀ e, lookup d n = some e → ∃ recs, e = .stream recs) →
    convertLoop p shape direction d names = .ok d := by
  intro names
  induction names with
  | nil => intro d _; rfl
  | cons n rest ih =>
      intro d hwf
      cases he : lookup d n with
      | none =>
          simp only [convertLoop, he]
          exact ih d (fun m hm => hwf m (List.mem_cons_of_mem _ hm))
      | some e =>
          obtain ⟨recs, rfl⟩ := hwf n (by simp) e he
          have hcc : check_and_convert p recs shape direction = .ok recs := by
            simp [check_and_convert, hfmt, hcheck]
          simp only [convertLoop, he, hcc]
          rw [setKey_eq_of_lookup d n _ he]
          exact ih d (fun m hm => hwf m (List.mem_cons_of_mem _ hm))

theorem postLoop_canonical (p : DataProcessor) (shape : List Nat)
    (hfmt : p.params.format = "albumentations")
    (hcheck : ∀ l s, p.check l s = .ok ()) :
    ∀ (names : List String) (d : Data),
    names.Nodup →
    (∀ n ∈ names, ∀ e, lookup d n = some e → ∃ recs, e = .stream recs) →
    ∃ d', postLoop p shape d names = .ok d'
      ∧ (∀ k, k ∉ names → lookup d' k = lookup d k)
      ∧ (∀ n ∈ names,
          (lookup d n = none → lookup d' n = none)
        ∧ (∀ recs, lookup d n = some (.stream recs) →
            lookup d' n = some (.stream (p.filter recs shape)))) := by
  intro names
  induction names with
  | nil =>
      intro d _ _
      exact ⟨d, rfl, fun _ _ => rfl, fun n hn => (List.not_mem_nil n hn).elim⟩
  | cons n rest ih =>
      intro d hnd hwf
      have hnrest : n ∉ rest := (List.nodup_cons.1 hnd).1
      have hrestnd : rest.Nodup := (List.nodup_cons.1 hnd).2
      cases he : lookup d n with
      | none =>
          have hstep : postLoop p shape d (n :: rest) = postLoop p shape d rest := by
            simp only [postLoop, he]
          obtain ⟨d', hrun, hother, hmem⟩ := ih d hrestnd
            (fun m hm => hwf m (List.mem_cons_of_mem _ hm))
          refine ⟨d', hstep ▸ hrun,
            fun k hk => hother k (fun hh => hk (List.mem_cons_of_mem _ hh)),
            fun m hm => ?_⟩
          rcases List.mem_cons.1 hm with rfl | hm'
          · exact ⟨fun _ => by rw [hother m hnrest, he],
              fun recs hrecs => by rw [he] at hrecs; exact absurd hrecs (by simp)⟩
          · exact hmem m hm'
      | some e =>
          obtain ⟨recs, rfl⟩ := hwf n (by simp) e he
          have hcc : check_and_convert p (p.filter recs shape) shape "from"
              = .ok (p.filter recs shape) := by
            simp [check_and_convert, hfmt, hcheck]
          have hstep : postLoop p shape d (n :: rest)
              = postLoop p shape (setKey d n (.stream (p.filter recs shape))) rest := by
            simp only [postLoop, he, hcc]
            rw [setKey_setKey]
          set d₁ := setKey d n (.stream (p.filter recs shape)) with hd₁
          have hlook₁ : ∀ k, k ≠ n → lookup d₁ k = lookup d k :=
            fun k hk => lookup_setKey_ne _ _ _ _ hk
          obtain ⟨d', hrun, hother, hmem⟩ := ih d₁ hrestnd
            (fun m hm e' he' => by
              have hmn : m ≠ n := fun hh => hnrest (hh ▸ hm)
              rw [hlook₁ m hmn] at he'
              exact hwf m (List.mem_cons_of_mem _ hm) e' he')
          refine ⟨d', hstep ▸ hrun, fun k hk => ?_, fun m hm => ?_⟩
          · have hkrest : k ∉ rest := fun hh => hk (List.mem_cons_of_mem _ hh)
            have hkn : k ≠ n := fun hh => hk (hh ▸ List.mem_cons_self _ _)
            rw [hother k hkrest, hlook₁ k hkn]
          · rcases List.mem_cons.1 hm with rfl | hm'
            · refine ⟨fun hnone => by rw [hnone] at he; exact Option.noConfusion he,
                fun recs' hrecs => ?_⟩
              rw [he] at hrecs
              have : recs' = recs := (Entry.stream.inj (Option.some.inj hrecs)).symm
              subst this
              rw [hother m hnrest, hd₁, lookup_setKey_self]
            · obtain ⟨habr, hpres⟩ := hmem m hm'
              have hmn : m ≠ n := fun hh => hnrest (hh ▸ hm')
              exact ⟨fun hh => habr (by rw [hlook₁ m hmn, hh]),
                fun recs' hrecs => hpres recs' (by rw [hlook₁ m hmn, hrecs])⟩

/-! ## Loop lemmas for remove_label_fields_from_data -/

theorem removeFieldLoop_id (L : Nat) (name : String) (recs : List (List Int)) :
    ∀ (fs : List String) (d : Data) (idx : Nat),
    lookup d name = some (.stream recs) → name ∉ fs →
    (∀ j, (hj : j < fs.length) → ∃ c, extractCol L (idx + j) recs = some c ∧
        lookup d (fs.get ⟨j, hj⟩) = some (.col c)) →
    removeFieldLoop L name d idx fs = .ok d := by
  intro fs
  induction fs with
  | nil => intro d idx _ _ _; rfl
  | cons f fs' ih =>
      intro d idx h hnm hcols
      obtain ⟨c, hext, hlook⟩ := hcols 0 (by simp)
      rw [Nat.add_zero] at hext
      have hlook' : lookup d f = some (.col c) := hlook
      have hset : setKey d f (.col c) = d := setKey_eq_of_lookup _ _ _ hlook'
      have hstep : removeFieldLoop L name d idx (f :: fs')
          = removeFieldLoop L name d (idx + 1) fs' := by
        simp only [removeFieldLoop, h, hext, hset]
      rw [hstep]
      exact ih d (idx + 1) h (fun hh => hnm (List.mem_cons_of_mem _ hh))
        (fun j hj => by
          obtain ⟨c', hext', hlook₂⟩ := hcols (j + 1) (by simpa using hj)
          exact ⟨c', by rw [show idx + 1 + j = idx + (j + 1) by omega, hext'], hlook₂⟩)

theorem removeFieldLoop_writes (L : Nat) (name : String) (recs : List (List Int))
    (hrl : ∀ r ∈ recs, L ≤ r.length) :
    ∀ (fs : List String) (d : Data) (idx : Nat),
    lookup d name = some (.stream recs) → name ∉ fs → fs.Nodup →
    (∀ j, j < fs.length → idx + j < L) →
    ∃ d', removeFieldLoop L name d idx fs = .ok d'
      ∧ (∀ k, ¬ k ∈ fs → lookup d' k = lookup d k)
      ∧ (∀ j, (hj : j < fs.length) →
          lookup d' (fs.get ⟨j, hj⟩) = some (.col (recs.map (tailAt L (idx + j))))) := by
  intro fs
  induction fs with
  | nil =>
      intro d idx _ _ _ _
      exact ⟨d, rfl, fun _ _ => rfl, fun j hj => absurd hj (by simp)⟩
  | cons f fs' ih =>
      intro d idx h hnm hnd hbound
      have hidx : idx < L := by
        have := hbound 0 (by simp)
        omega
      have hext : extractCol L idx recs = some (recs.map (tailAt L idx)) :=
        extractCol_eq_map L idx hidx recs hrl
      have hnamef : name ≠ f := fun hh => hnm (hh ▸ List.mem_cons_self _ _)
      have hstep : removeFieldLoop L name d idx (f :: fs')
          = removeFieldLoop L name (setKey d f (.col (recs.map (tailAt L idx)))) (idx + 1) fs' := by
        simp only [removeFieldLoop, h, hext]
      set d₁ := setKey d f (.col (recs.map (tailAt L idx))) with hd₁
      have hfnotin : f ∉ fs' := (List.nodup_cons.1 hnd).1
      obtain ⟨d', hrun, hother, hwritten⟩ := ih d₁ (idx + 1)
        (by rw [hd₁, lookup_setKey_ne _ _ _ _ hnamef, h])
        (fun hh => hnm (List.mem_cons_of_mem _ hh))
        (List.nodup_cons.1 hnd).2
        (fun j hj => by
          have := hbound (j + 1) (by simpa using hj)
          omega)
      refine ⟨d', by rw [hstep, hrun], fun k hk => ?_, fun j hj => ?_⟩
      · have hkf : k ≠ f := fun hh => hk (hh ▸ List.mem_cons_self _ _)
        have hkfs' : ¬ k ∈ fs' := fun hh => hk (List.mem_cons_of_mem _ hh)
        rw [hother k hkfs', hd₁, lookup_setKey_ne _ _ _ _ hkf]
      · match j, hj with
        | 0, hj =>
            have : (f :: fs').get ⟨0, hj⟩ = f := rfl
            rw [this, hother f hfnotin, hd₁, lookup_setKey_self, Nat.add_zero]
        | j + 1, hj =>
            have hj' : j < fs'.length := by simpa using hj
            have hgets : (f :: fs').get ⟨j + 1, hj⟩ = fs'.get ⟨j, hj'⟩ := rfl
            rw [hgets, hwritten j hj', show idx + 1 + j = idx + (j + 1) by omega]

theorem removeStreamLoop_restore (L : Nat) (fs : List String) (colFn : String → List Int)
    (hL : fs.length = L) :
    ∀ (names : List String) (d : Data),
    names.Nodup →
    (∀ n ∈ names, n ∉ fs) →
    (∀ n ∈ names, ∀ e, lookup d n = some e →
      ∃ core, e = .stream (attachCols core (List.map colFn fs))
        ∧ (∀ f ∈ fs, lookup d f = some (.col (colFn f)) ∧ (colFn f).length = core.length)) →
    ∃ d', removeStreamLoop L fs d names = .ok d'
      ∧ (∀ k, k ∉ names → lookup d' k = lookup d k)
      ∧ (∀ n ∈ names,
          (lookup d n = none → lookup d' n = none)
        ∧ (∀ recs, lookup d n = some (.stream recs) →
            lookup d' n = some (.stream (recs.map (stripRecord L))))) := by
  intro names
  induction names with
  | nil =>
      intro d _ _ _
      exact ⟨d, rfl, fun _ _ => rfl, fun n hn => (List.not_mem_nil n hn).elim⟩
  | cons n rest ih =>
      intro d hnd hdisj hwf
      have hnrest : n ∉ rest := (List.nodup_cons.1 hnd).1
      have hrestnd : rest.Nodup := (List.nodup_cons.1 hnd).2
      cases he : lookup d n with
      | none =>
          have hstep : removeStreamLoop L fs d (n :: rest) = removeStreamLoop L fs d rest := by
            simp only [removeStreamLoop, he, Option.isSome_none]
            rfl
          obtain ⟨d', hrun, hother, hmem⟩ := ih d hrestnd
            (fun m hm => hdisj m (List.mem_cons_of_mem _ hm))
            (fun m hm => hwf m (List.mem_cons_of_mem _ hm))
          refine ⟨d', hstep ▸ hrun,
            fun k hk => hother k (fun hh => hk (List.mem_cons_of_mem _ hh)),
            fun m hm => ?_⟩
          rcases List.mem_cons.1 hm with rfl | hm'
          · exact ⟨fun _ => by rw [hother m hnrest, he],
              fun recs hrecs => by rw [he] at hrecs; exact absurd hrecs (by simp)⟩
          · exact hmem m hm'
      | some e =>
          obtain ⟨core, rfl, hcols⟩ := hwf n (by simp) e he
          have hnfs : n ∉ fs := hdisj n (by simp)
          have hclen : ∀ c ∈ List.map colFn fs, c.length = core.length := by
            intro c hc
            obtain ⟨f, hf, rfl⟩ := List.mem_map.1 hc
            exact (hcols f hf).2
          have hid := removeFieldLoop_id L n (attachCols core (List.map colFn fs)) fs d 0 he
            hnfs
            (fun j hj => by
              refine ⟨colFn (fs.get ⟨j, hj⟩), ?_, (hcols _ (fs.get_mem _ _)).1⟩
              rw [Nat.zero_add,
                extract_attach L core (List.map colFn fs) j (by simpa using hL) hclen
                  (by omega)]
              congr 1
              rw [List.getD_eq_getElem?_getD,
                List.getElem?_eq_getElem (by simpa using hj)]
              simp [List.getElem_map])
          have hstep : removeStreamLoop L fs d (n :: rest)
              = removeStreamLoop L fs
                  (setKey d n
                    (.stream ((attachCols core (List.map colFn fs)).map (stripRecord L))))
                  rest := by
            simp only [removeStreamLoop, he, Option.isSome_some, hid, he]
            rfl
          set d₁ := setKey d n
            (.stream ((attachCols core (List.map colFn fs)).map (stripRecord L))) with hd₁
          have hlook₁ : ∀ k, k ≠ n → lookup d₁ k = lookup d k :=
            fun k hk => lookup_setKey_ne _ _ _ _ hk
          obtain ⟨d', hrun, hother, hmem⟩ := ih d₁ hrestnd
            (fun m hm => hdisj m (List.mem_cons_of_mem _ hm))
            (fun m hm e' he' => by
              have hmn : m ≠ n := fun hh => hnrest (hh ▸ hm)
              rw [hlook₁ m hmn] at he'
              obtain ⟨core', hev, hcols'⟩ := hwf m (List.mem_cons_of_mem _ hm) e' he'
              refine ⟨core', hev, fun f hf => ?_⟩
              have hfn : f ≠ n := fun hh => hnfs (hh ▸ hf)
              obtain ⟨hc, hl⟩ := hcols' f hf
              exact ⟨by rw [hlook₁ f hfn, hc], hl⟩)
          refine ⟨d', hstep ▸ hrun, fun k hk => ?_, fun m hm => ?_⟩
          · have hkrest : k ∉ rest := fun hh => hk (List.mem_cons_of_mem _ hh)
            have hkn : k ≠ n := fun hh => hk (hh ▸ List.mem_cons_self _ _)
            rw [hother k hkrest, hlook₁ k hkn]
          · rcases List.mem_cons.1 hm with rfl | hm'
            · refine ⟨fun hnone => by rw [hnone] at he; exact Option.noConfusion he,
                fun recs' hrecs => ?_⟩
              rw [he] at hrecs
              have : recs' = attachCols core (List.map colFn fs) :=
                Entry.stream.inj (Option.some.inj hrecs.symm)
              subst this
              rw [hother m hnrest, hd₁, lookup_setKey_self]
            · obtain ⟨habr, hpres⟩ := hmem m hm'
              have hmn : m ≠ n := fun hh => hnrest (hh ▸ hm')
              exact ⟨fun hh => habr (by rw [hlook₁ m hmn, hh]),
                fun recs' hrecs => hpres recs' (by rw [hlook₁ m hmn, hrecs])⟩

theorem lastPresent_mem (d : Data) : ∀ (names : List String) (m : String),
    lastPresent d names = some m → m ∈ names ∧ (lookup d m).isSome = true := by
  intro names
  induction names with
  | nil => intro m h; exact absurd h (by simp [lastPresent])
  | cons n rest ih =>
      intro m h
      rw [lastPresent] at h
      cases hr : lastPresent d rest with
      | some m' =>
          rw [hr] at h
          obtain rfl := Option.some.inj h
          obtain ⟨h1, h2⟩ := ih m' hr
          exact ⟨List.mem_cons_of_mem _ h1, h2⟩
      | none =>
          rw [hr] at h
          by_cases hn : (lookup d n).isSome = true
          · rw [if_pos hn] at h
            obtain rfl := Option.some.inj h
            exact ⟨by simp, hn⟩
          · rw [if_neg hn] at h
            exact absurd h (by simp)

theorem lastPresent_congr (d d' : Data) : ∀ names : List String,
    (∀ m ∈ names, (lookup d' m).isSome = (lookup d m).isSome) →
    lastPresent d' names = lastPresent d names := by
  intro names
  induction names with
  | nil => intro _; rfl
  | cons n rest ih =>
      intro h
      rw [lastPresent, lastPresent, ih (fun m hm => h m (List.mem_cons_of_mem _ hm)),
        h n (by simp)]

theorem removeStreamLoop_last (L : Nat) (fs : List String) (hL : fs.length = L)
    (hfnd : fs.Nodup) :
    ∀ (names : List String) (d : Data),
    names.Nodup →
    (∀ n ∈ names, n ∉ fs) →
    (∀ n ∈ names, ∀ e, lookup d n = some e →
      ∃ recs, e = .stream recs ∧ ∀ r ∈ recs, L ≤ r.length) →
    ∃ d', removeStreamLoop L fs d names = .ok d'
      ∧ (∀ k, k ∉ names → k ∉ fs → lookup d' k = lookup d k)
      ∧ (∀ n ∈ names, ∀ recs, lookup d n = some (.stream recs) →
          lookup d' n = some (.stream (recs.map (stripRecord L))))
      ∧ (∀ m recsM, lastPresent d names = some m →
          lookup d m = some (.stream recsM) →
          ∀ j, (hj : j < fs.length) →
            lookup d' (fs.get ⟨j, hj⟩) = some (.col (recsM.map (tailAt L j))))
      ∧ (lastPresent d names = none → ∀ f ∈ fs, lookup d' f = lookup d f) := by
  intro names
  induction names with
  | nil =>
      intro d _ _ _
      exact ⟨d, rfl, fun _ _ _ => rfl, fun n hn => (List.not_mem_nil n hn).elim,
        fun m _ h => absurd h (by simp [lastPresent]), fun _ _ _ => rfl⟩
  | cons n rest ih =>
      intro d hnd hdisj hwf
      have hnrest : n ∉ rest := (List.nodup_cons.1 hnd).1
      have hrestnd : rest.Nodup := (List.nodup_cons.1 hnd).2
      cases he : lookup d n with
      | none =>
          have hstep : removeStreamLoop L fs d (n :: rest) = removeStreamLoop L fs d rest := by
            simp only [removeStreamLoop, he, Option.isSome_none]
            rfl
          obtain ⟨d', hrun, hother, hstr, hsome, hnone⟩ := ih d hrestnd
            (fun m hm => hdisj m (List.mem_cons_of_mem _ hm))
            (fun m hm => hwf m (List.mem_cons_of_mem _ hm))
          have hlp : lastPresent d (n :: rest) = lastPresent d rest := by
            rw [lastPresent]
            cases hr : lastPresent d rest with
            | some m => rfl
            | none => simp [he]
          refine ⟨d', hstep ▸ hrun,
            fun k hk hkf => hother k (fun hh => hk (List.mem_cons_of_mem _ hh)) hkf,
            fun m hm recs hrecs => ?_, fun m recsM hm hlm j hj => ?_, fun hn0 => ?_⟩
          · rcases List.mem_cons.1 hm with rfl | hm'
            · rw [he] at hrecs; exact absurd hrecs (by simp)
            · exact hstr m hm' recs hrecs
          · exact hsome m recsM (by rw [← hlp, hm]) hlm j hj
          · exact hnone (by rw [← hlp, hn0])
      | some e =>
          obtain ⟨recs, rfl, hrl⟩ := hwf n (by simp) e he
          have hnfs : n ∉ fs := hdisj n (by simp)
          obtain ⟨dw, hwrun, hotherW, hwrit⟩ := removeFieldLoop_writes L n recs hrl fs d 0
            he hnfs hfnd (fun j hj => by omega)
          have hdwn : lookup dw n = some (.stream recs) := by
            rw [hotherW n hnfs, he]
          have hstep : removeStreamLoop L fs d (n :: rest)
              = removeStreamLoop L fs
                  (setKey dw n (.stream (recs.map (stripRecord L)))) rest := by
            simp only [removeStreamLoop, he, Option.isSome_some, hwrun, hdwn]
            rfl
          set d₂ := setKey dw n (.stream (recs.map (stripRecord L))) with hd₂
          have hlook₂ : ∀ k, k ≠ n → k ∉ fs → lookup d₂ k = lookup d k := by
            intro k hk hkf
            rw [hd₂, lookup_setKey_ne _ _ _ _ hk, hotherW k hkf]
          have hrestlook : ∀ m ∈ rest, lookup d₂ m = lookup d m := by
            intro m hm
            exact hlook₂ m (fun hh => hnrest (hh ▸ hm)) (hdisj m (List.mem_cons_of_mem _ hm))
          obtain ⟨d', hrun, hother, hstr, hsome, hnone⟩ := ih d₂ hrestnd
            (fun m hm => hdisj m (List.mem_cons_of_mem _ hm))
            (fun m hm e' he' => by
              rw [hrestlook m hm] at he'
              exact hwf m (List.mem_cons_of_mem _ hm) e' he')
          have hlp₂ : lastPresent d₂ rest = lastPresent d rest :=
            lastPresent_congr d d₂ rest (fun m hm => by rw [hrestlook m hm])
          refine ⟨d', hstep ▸ hrun, fun k hk hkf => ?_, fun m hm recs' hrecs => ?_,
            fun m recsM hm hlm j hj => ?_, fun hn0 => ?_⟩
          · have hkrest : k ∉ rest := fun hh => hk (List.mem_cons_of_mem _ hh)
            have hkn : k ≠ n := fun hh => hk (hh ▸ List.mem_cons_self _ _)
            rw [hother k hkrest hkf, hlook₂ k hkn hkf]
          · rcases List.mem_cons.1 hm with rfl | hm'
            · rw [he] at hrecs
              obtain rfl : recs' = recs := (Entry.stream.inj (Option.some.inj hrecs)).symm
              rw [hother m hnrest hnfs, hd₂, lookup_setKey_self]
            · rw [← hrestlook m hm'] at hrecs
              exact hstr m hm' recs' hrecs
          · rw [lastPresent] at hm
            cases hr : lastPresent d rest with
            | some m₀ =>
                rw [hr] at hm
                obtain rfl := Option.some.inj hm
                have hm₀rest : m₀ ∈ rest := (lastPresent_mem d rest m₀ hr).1
                exact hsome m₀ recsM (by rw [hlp₂, hr])
                  (by rw [hrestlook m₀ hm₀rest, hlm]) j hj
            | none =>
                rw [hr, he] at hm
                simp only [Option.isSome_some, if_pos] at hm
                obtain rfl := Option.some.inj hm
                rw [he] at hlm
                obtain rfl : recsM = recs := Entry.stream.inj (Option.some.inj hlm.symm)
                have hfsn : fs.get ⟨j, hj⟩ ≠ n := fun hh => hnfs (hh ▸ fs.get_mem _ _)
                rw [hnone (by rw [hlp₂, hr]) _ (fs.get_mem _ _), hd₂,
                  lookup_setKey_ne _ _ _ _ hfsn]
                have := hwrit j hj
                rw [Nat.zero_add] at this
                exact this
          · exfalso
            rw [lastPresent] at hn0
            cases hr : lastPresent d rest with
            | some m₀ => rw [hr] at hn0; exact Option.noConfusion hn0
            | none =>
                rw [hr, he] at hn0
                simp at hn0

/-! ## C1: label round trip -/

/-- C1: on a sample whose declared format is canonical, whose checks all
pass, whose filter removes no records, and whose label columns match their
streams, `postprocess` after `preprocess` restores every label column to
its original values in original order and every annotation stream to its
original coordinate-only records; all other keys are also untouched. -/
theorem c1_label_round_trip (p : DataProcessor) (d : Data) (fs : List String)
    (colFn : String → List Int)
    (hfmt : p.params.format = "albumentations")
    (hcheck : ∀ l s, p.check l s = .ok ())
    (hfilter : ∀ l s, p.filter l s = l)
    (hlf : p.params.label_fields = some fs)
    (hnd : p.data_fields.Nodup)
    (hdisj : ∀ n ∈ p.data_fields, n ∉ fs)
    (himgn : ¬ "image" ∈ p.data_fields)
    (himgf : ¬ "image" ∈ fs)
    (himg : ∃ i shp, lookup d "image" = some (.image i) ∧ get_shape i = .ok shp)
    (hcols : ∀ f ∈ fs, lookup d f = some (.col (colFn f)))
    (hstreams : ∀ n ∈ p.data_fields, ∀ e, lookup d n = some e →
      ∃ recs, e = .stream recs ∧ ∀ f ∈ fs, (colFn f).length = recs.length) :
    ∃ d₁ d₂, preprocess p d = .ok d₁ ∧ postprocess p d₁ = .ok d₂
      ∧ (∀ f ∈ fs, lookup d₂ f = lookup d f)
      ∧ (∀ n ∈ p.data_fields, lookup d₂ n = lookup d n)
      ∧ (∀ k, ¬ k ∈ p.data_fields → ¬ k ∈ fs → lookup d₂ k = lookup d k) := by
  obtain ⟨i, shp, himgl, himgs⟩ := himg
  have hfdf : ∀ f ∈ fs, ¬ f ∈ p.data_fields := fun f hf hfd => hdisj f hfd hf
  -- label attachment
  obtain ⟨da, hruna, hothera, hmema⟩ := addStreamLoop_ok fs colFn p.data_fields d hnd hdisj
    (fun n hn e he => by
      obtain ⟨recs, hrv, hlen⟩ := hstreams n hn e he
      exact ⟨recs, hrv, fun f hf => ⟨hcols f hf, hlen f hf⟩⟩)
  have hadd : add_label_fields_to_data p d = .ok da := by
    rw [add_label_fields_to_data, hlf]
    exact hruna
  -- keys of the attached sample
  have hda_img : lookup da "image" = some (.image i) := by rw [hothera _ himgn, himgl]
  have hda_f : ∀ f ∈ fs, lookup da f = lookup d f := fun f hf => hothera f (hfdf f hf)
  have hda_streams : ∀ n ∈ p.data_fields, ∀ e, lookup da n = some e →
      ∃ recs, e = .stream recs := by
    intro n hn e he
    cases hdn : lookup d n with
    | none => rw [(hmema n hn).1 hdn] at he; exact absurd he (by simp)
    | some e₀ =>
        obtain ⟨recs, rfl, _⟩ := hstreams n hn e₀ hdn
        rw [(hmema n hn).2 recs hdn] at he
        exact ⟨attachCols recs (List.map colFn fs), (Option.some.inj he).symm⟩
  -- preprocess succeeds and returns the attached sample unchanged
  have hshape : getImageShape da = .ok shp := by
    simp only [getImageShape, hda_img]
    exact himgs
  have hpre : preprocess p d = .ok da := by
    simp only [preprocess, hadd, hshape]
    exact convertLoop_canonical_id p shp "to" hfmt hcheck p.data_fields da hda_streams
  -- postprocess: filtering and conversion leave streams unchanged
  obtain ⟨db, hrunb, hotherb, hmemb⟩ := postLoop_canonical p shp hfmt hcheck p.data_fields da
    hnd hda_streams
  have hdb_img : lookup db "image" = some (.image i) := by rw [hotherb _ himgn, hda_img]
  have hdb_f : ∀ f ∈ fs, lookup db f = lookup d f := fun f hf => by
    rw [hotherb f (hfdf f hf), hda_f f hf]
  have hdb_streams : ∀ n ∈ p.data_fields,
      (lookup d n = none → lookup db n = none)
    ∧ (∀ recs, lookup d n = some (.stream recs) →
        lookup db n = some (.stream (attachCols recs (List.map colFn fs)))) := by
    intro n hn
    refine ⟨fun hdn => (hmemb n hn).1 ((hmema n hn).1 hdn), fun recs hdn => ?_⟩
    have hda : lookup da n = some (.stream (attachCols recs (List.map colFn fs))) :=
      (hmema n hn).2 recs hdn
    rw [(hmemb n hn).2 _ hda, hfilter]
  -- label detachment restores everything
  have hcollen : ∀ n ∈ p.data_fields, ∀ recs, lookup d n = some (.stream recs) →
      ∀ c ∈ List.map colFn fs, c.length = recs.length := by
    intro n hn recs hdn c hc
    obtain ⟨f, hf, rfl⟩ := List.mem_map.1 hc
    obtain ⟨recs', hrv, hlen⟩ := hstreams n hn _ hdn
    obtain rfl : recs' = recs := Entry.stream.inj hrv.symm
    exact hlen f hf
  have hremove : ∃ dc, remove_label_fields_from_data p db = .ok dc
      ∧ (∀ k, ¬ k ∈ p.data_fields → lookup dc k = lookup db k)
      ∧ (∀ n ∈ p.data_fields,
          (lookup db n = none → lookup dc n = none)
        ∧ (∀ recs', lookup db n = some (.stream recs') →
            lookup dc n = some (.stream (recs'.map (stripRecord fs.length))))) := by
    match fs, hlf, hcols, hda_f, hdb_f, hfdf, hcollen, hdb_streams with
    | [], hlf, _, _, _, _, _, _ =>
        refine ⟨db, by rw [remove_label_fields_from_data, hlf], fun _ _ => rfl,
          fun n hn => ⟨fun h => h, fun recs' h => ?_⟩⟩
        rw [h]
        have hmap : ∀ rl : List (List Int), List.map (stripRecord 0) rl = rl := by
          intro rl
          induction rl with
          | nil => rfl
          | cons r rs ih => simp [stripRecord, ih]
        show some (Entry.stream recs') = some (Entry.stream (List.map (stripRecord 0) recs'))
        rw [hmap recs']
    | f₀ :: fs', hlf, hcols, hda_f, hdb_f, hfdf, hcollen, hdb_streams =>
        obtain ⟨dc, hrunc, hotherc, hmemc⟩ :=
          removeStreamLoop_restore (f₀ :: fs').length (f₀ :: fs') colFn rfl
            p.data_fields db hnd hdisj
            (fun n hn e he => by
              cases hdn : lookup d n with
              | none =>
                  rw [(hdb_streams n hn).1 hdn] at he
                  exact absurd he (by simp)
              | some e₀ =>
                  obtain ⟨recs, rfl, _⟩ := hstreams n hn e₀ hdn
                  rw [(hdb_streams n hn).2 recs hdn] at he
                  refine ⟨recs, (Option.some.inj he).symm, fun f hf => ?_⟩
                  obtain ⟨recs', hrv, hlen⟩ := hstreams n hn _ hdn
                  obtain rfl : recs' = recs := Entry.stream.inj hrv.symm
                  exact ⟨by rw [hdb_f f hf, hcols f hf], hlen f hf⟩)
        exact ⟨dc, by rw [remove_label_fields_from_data, hlf]; exact hrunc,
          fun k hk => hotherc k hk, hmemc⟩
  obtain ⟨dc, hrunc, hotherc, hmemc⟩ := hremove
  have hpost : postprocess p da = .ok dc := by
    simp only [postprocess, hshape, hrunb]
    exact hrunc
  refine ⟨da, dc, hpre, hpost, fun f hf => ?_, fun n hn => ?_, fun k hk hkf => ?_⟩
  · rw [hotherc f (hfdf f hf), hdb_f f hf]
  · cases hdn : lookup d n with
    | none => rw [(hmemc n hn).1 ((hdb_streams n hn).1 hdn)]
    | some e₀ =>
        obtain ⟨recs, rfl, _⟩ := hstreams n hn e₀ hdn
        rw [(hmemc n hn).2 _ ((hdb_streams n hn).2 recs hdn),
          strip_attach fs.length recs (List.map colFn fs) (by simp)
            (hcollen n hn recs hdn)]
  · rw [hotherc k hk, hotherb k hk, hothera k hk]

/-- Witness for C1 at the concrete processor `procW` and sample `sampleW`. -/
theorem c1_label_round_trip_witness :
    ∃ d₁ d₂, preprocess procW sampleW = .ok d₁ ∧ postprocess procW d₁ = .ok d₂
      ∧ (∀ f ∈ ["f1", "f2"], lookup d₂ f = lookup sampleW f)
      ∧ (∀ n ∈ procW.data_fields, lookup d₂ n = lookup sampleW n)
      ∧ (∀ k, ¬ k ∈ procW.data_fields → ¬ k ∈ ["f1", "f2"] →
          lookup d₂ k = lookup sampleW k) :=
  c1_label_round_trip procW sampleW ["f1", "f2"] colFnW rfl (fun _ _ => rfl)
    (fun _ _ => rfl) rfl (by decide) (by decide) (by decide) (by decide)
    ⟨.ndarray [4, 4, 3], [4, 4], by decide, by decide⟩
    (by decide)
    (by
      intro n hn e he
      have hn' : n = "bboxes" := by simpa [procW] using hn
      subst hn'
      have hl : lookup sampleW "bboxes" = some (.stream [[1, 2], [3, 4]]) := by decide
      rw [hl] at he
      obtain rfl := Option.some.inj he
      exact ⟨[[1, 2], [3, 4]], rfl, by decide⟩)

/-! ## C2: annotation-to-label correspondence through postprocess -/

/-- Counterexample to C2: with two streams handled by one processor, the
`bboxes` record at position 0 carries trailing label 7 and nothing is
filtered away, yet after `postprocess` the `cls` column holds 9 — the label
of the `extra` stream, which overwrote the column written for `bboxes`. So
the claimed correspondence fails for a stream that is not the last present
one. -/
theorem c2_counterexample :
    postprocess procTwo sampleTwo = .ok
      [("image", .image (.ndarray [4, 4, 3])),
       ("bboxes", .stream [[1, 2]]),
       ("extra", .stream [[3, 4]]),
       ("cls", .col [9])]
  ∧ lookup sampleTwo "bboxes" = some (.stream [[1, 2, 7]])
  ∧ procTwo.filter [[1, 2, 7]] [4, 4] = [[1, 2, 7]]
  ∧ ¬ lookup
      [("image", Entry.image (.ndarray [4, 4, 3])),
       ("bboxes", .stream [[1, 2]]),
       ("extra", .stream [[3, 4]]),
       ("cls", .col [9])] "cls" = some (.col [7]) := by
  refine ⟨by decide, by decide, rfl, by decide⟩

/-- C2, amended: under the canonical format with passing checks, for every
sample the position correspondence holds for the **last** stream of
`data_fields` present in the sample (streams processed later overwrite the
label columns written for earlier ones): each label field's column gets
exactly one entry per surviving record of that stream, entry `i` being the
trailing value at that field's offset of survivor `i` — even when filtering
drops records; every present stream itself is rebuilt from its filtered
records with the trailing label values stripped. -/
theorem c2_position_correspondence_amended (p : DataProcessor) (d : Data)
    (fs : List String) (L : Nat) (i : Img) (shp : List Nat) (n₀ : String)
    (recs₀ : List (List Int))
    (hL : fs.length = L)
    (hfmt : p.params.format = "albumentations")
    (hcheck : ∀ l s, p.check l s = .ok ())
    (hlf : p.params.label_fields = some fs)
    (hfs : fs ≠ [])
    (hnd : p.data_fields.Nodup)
    (hfnd : fs.Nodup)
    (hdisj : ∀ n ∈ p.data_fields, ¬ n ∈ fs)
    (himg : lookup d "image" = some (.image i))
    (hshp : get_shape i = .ok shp)
    (hstreams : ∀ n ∈ p.data_fields, ∀ e, lookup d n = some e →
      ∃ recs, e = .stream recs ∧ ∀ r ∈ p.filter recs shp, L ≤ r.length)
    (hlast : lastPresent d p.data_fields = some n₀)
    (hn₀ : lookup d n₀ = some (.stream recs₀)) :
    ∃ d', postprocess p d = .ok d'
      ∧ (∀ j, (hj : j < fs.length) →
          lookup d' (fs.get ⟨j, hj⟩) =
            some (.col ((p.filter recs₀ shp).map (tailAt L j))))
      ∧ (∀ n ∈ p.data_fields, ∀ recs, lookup d n = some (.stream recs) →
          lookup d' n = some (.stream ((p.filter recs shp).map (stripRecord L)))) := by
  have hshape : getImageShape d = .ok shp := by
    simp only [getImageShape, himg]
    exact hshp
  obtain ⟨db, hrunb, hotherb, hmemb⟩ := postLoop_canonical p shp hfmt hcheck p.data_fields d
    hnd
    (fun n hn e he => by
      obtain ⟨recs, hrv, _⟩ := hstreams n hn e he
      exact ⟨recs, hrv⟩)
  have hn₀mem : n₀ ∈ p.data_fields := (lastPresent_mem d p.data_fields n₀ hlast).1
  have hdb_n₀ : lookup db n₀ = some (.stream (p.filter recs₀ shp)) :=
    (hmemb n₀ hn₀mem).2 recs₀ hn₀
  obtain ⟨dc, hrunc, hotherc, hstrc, hsomec, _⟩ :=
    removeStreamLoop_last L fs hL hfnd p.data_fields db hnd hdisj
    (fun n hn e he => by
      cases hdn : lookup d n with
      | none => rw [(hmemb n hn).1 hdn] at he; exact absurd he (by simp)
      | some e₀ =>
          obtain ⟨recs, rfl, hlen⟩ := hstreams n hn e₀ hdn
          rw [(hmemb n hn).2 recs hdn] at he
          exact ⟨p.filter recs shp, (Option.some.inj he).symm, hlen⟩)
  have hlpdb : lastPresent db p.data_fields = some n₀ := by
    rw [lastPresent_congr d db p.data_fields
      (fun m hm => by
        cases hdm : lookup d m with
        | none => rw [(hmemb m hm).1 hdm]
        | some e₀ =>
            obtain ⟨recs, rfl, _⟩ := hstreams m hm e₀ hdm
            rw [(hmemb m hm).2 recs hdm]
            rfl), hlast]
  have hremove : remove_label_fields_from_data p db = .ok dc := by
    obtain ⟨f₀, fs', rfl⟩ : ∃ f₀ fs', fs = f₀ :: fs' := by
      cases fs with
      | nil => exact absurd rfl hfs
      | cons a l => exact ⟨a, l, rfl⟩
    rw [remove_label_fields_from_data, hlf]
    show removeStreamLoop (f₀ :: fs').length (f₀ :: fs') db p.data_fields = .ok dc
    rw [hL]
    exact hrunc
  refine ⟨dc, ?_, fun j hj => ?_, fun n hn recs hrecs => ?_⟩
  · simp only [postprocess, hshape, hrunb]
    exact hremove
  · exact hsomec n₀ (p.filter recs₀ shp) hlpdb hdb_n₀ j hj
  · exact hstrc n hn (p.filter recs shp) ((hmemb n hn).2 recs hrecs)

/-- Witness for C2 (amended) at the concrete two-stream processor. -/
theorem c2_position_correspondence_amended_witness :
    ∃ d', postprocess procTwo sampleTwo = .ok d'
      ∧ (∀ j, (hj : j < (["cls"] : List String).length) →
          lookup d' ((["cls"] : List String).get ⟨j, hj⟩) =
            some (.col ((procTwo.filter [[3, 4, 9]] [4, 4]).map (tailAt 1 j))))
      ∧ (∀ n ∈ procTwo.data_fields, ∀ recs,
          lookup sampleTwo n = some (.stream recs) →
          lookup d' n =
            some (.stream ((procTwo.filter recs [4, 4]).map (stripRecord 1)))) :=
  c2_position_correspondence_amended procTwo sampleTwo ["cls"] 1
    (.ndarray [4, 4, 3]) [4, 4] "extra" [[3, 4, 9]]
    rfl rfl (fun _ _ => rfl) rfl (by decide) (by decide) (by decide) (by decide)
    (by decide) (by decide)
    (by
      intro n hn e he
      have hn' : n = "bboxes" ∨ n = "extra" := by simpa [procTwo] using hn
      rcases hn' with rfl | rfl
      · have hl : lookup sampleTwo "bboxes" = some (.stream [[1, 2, 7]]) := by decide
        rw [hl] at he
        obtain rfl := Option.some.inj he
        exact ⟨[[1, 2, 7]], rfl, by decide⟩
      · have hl : lookup sampleTwo "extra" = some (.stream [[3, 4, 9]]) := by decide
        rw [hl] at he
        obtain rfl := Option.some.inj he
        exact ⟨[[3, 4, 9]], rfl, by decide⟩)
    (by decide) (by decide)

/-! ## C3: length mismatch in preprocess -/

theorem firstBadField_ne (d : Data) (n : Nat) : ∀ (fs : List String) (m : Nat),
    firstBadField d n fs = some m → m ≠ n := by
  intro fs
  induction fs with
  | nil => intro m h; exact absurd h (by simp [firstBadField])
  | cons f fs' ih =>
      intro m h
      rw [firstBadField] at h
      by_cases hb : colLen d f ≠ n
      · rw [if_pos hb] at h
        obtain rfl := Option.some.inj h
        exact hb
      · rw [if_neg hb] at h
        exact ih m h

theorem firstBadField_congr (d d' : Data) (n : Nat) : ∀ fs : List String,
    (∀ f ∈ fs, colLen d' f = colLen d f) →
    firstBadField d' n fs = firstBadField d n fs := by
  intro fs
  induction fs with
  | nil => intro _; rfl
  | cons f fs' ih =>
      intro hc
      rw [firstBadField, firstBadField, hc f (by simp),
        ih (fun f' hf' => hc f' (List.mem_cons_of_mem _ hf'))]

theorem firstBadField_none (d : Data) (n : Nat) : ∀ fs : List String,
    firstBadField d n fs = none → ∀ f ∈ fs, colLen d f = n := by
  intro fs
  induction fs with
  | nil => intro _ f hf; exact absurd hf (by simp)
  | cons f₀ fs' ih =>
      intro h f hf
      rw [firstBadField] at h
      by_cases hb : colLen d f₀ ≠ n
      · rw [if_pos hb] at h
        exact absurd h (by simp)
      · rw [if_neg hb] at h
        rcases List.mem_cons.1 hf with rfl | hf'
        · exact not_not.1 hb
        · exact ih h f hf'

theorem findMismatch_ne (d : Data) (fs : List String) : ∀ (names : List String) (n m : Nat),
    findMismatch d fs names = some (n, m) → n ≠ m := by
  intro names
  induction names with
  | nil => intro n m h; exact absurd h (by simp [findMismatch])
  | cons nm rest ih =>
      intro n m h
      cases hd : lookup d nm with
      | none =>
          rw [findMismatch, hd] at h
          exact ih n m h
      | some e =>
          cases e with
          | stream recs =>
              simp only [findMismatch, hd] at h
              cases hb : firstBadField d recs.length fs with
              | none =>
                  rw [hb] at h
                  exact ih n m h
              | some m' =>
                  rw [hb] at h
                  have h2 : (recs.length, m') = (n, m) := Option.some.inj h
                  have hn : recs.length = n := congrArg Prod.fst h2
                  have hm : m' = m := congrArg Prod.snd h2
                  subst hn
                  subst hm
                  exact fun hh => (firstBadField_ne d recs.length fs m' hb) hh.symm
          | col vals =>
              rw [findMismatch, hd] at h
              exact ih n m h
          | image i =>
              rw [findMismatch, hd] at h
              exact ih n m h

theorem findMismatch_congr (d d' : Data) (fs : List String)
    (hc : ∀ f ∈ fs, colLen d' f = colLen d f) : ∀ names : List String,
    (∀ m ∈ names, streamLen? d' m = streamLen? d m) →
    findMismatch d' fs names = findMismatch d fs names := by
  intro names
  induction names with
  | nil => intro _; rfl
  | cons nm rest ih =>
      intro hs
      have hsl := hs nm (by simp)
      have hrest := ih (fun m hm => hs m (List.mem_cons_of_mem _ hm))
      cases hd : lookup d nm with
      | none =>
          have hno : streamLen? d nm = none := by rw [streamLen?, hd]
          rw [hno] at hsl
          cases hd' : lookup d' nm with
          | none => simp only [findMismatch, hd, hd']; exact hrest
          | some e' =>
              cases e' with
              | stream recs' =>
                  rw [streamLen?, hd'] at hsl
                  exact absurd hsl (by simp)
              | col vals => simp only [findMismatch, hd, hd']; exact hrest
              | image i => simp only [findMismatch, hd, hd']; exact hrest
      | some e =>
          cases e with
          | stream recs =>
              have hsm : streamLen? d nm = some recs.length := by rw [streamLen?, hd]
              rw [hsm] at hsl
              cases hd' : lookup d' nm with
              | none =>
                  rw [streamLen?, hd'] at hsl
                  exact absurd hsl (by simp)
              | some e' =>
                  cases e' with
                  | stream recs' =>
                      rw [streamLen?, hd'] at hsl
                      have hlen : recs'.length = recs.length := Option.some.inj hsl
                      simp only [findMismatch, hd, hd', hlen,
                        firstBadField_congr d d' recs.length fs hc, hrest]
                  | col vals =>
                      rw [streamLen?, hd'] at hsl
                      exact absurd hsl (by simp)
                  | image i =>
                      rw [streamLen?, hd'] at hsl
                      exact absurd hsl (by simp)
          | col vals =>
              have hno : streamLen? d nm = none := by rw [streamLen?, hd]
              rw [hno] at hsl
              cases hd' : lookup d' nm with
              | none => simp only [findMismatch, hd, hd']; exact hrest
              | some e' =>
                  cases e' with
                  | stream recs' =>
                      rw [streamLen?, hd'] at hsl
                      exact absurd hsl (by simp)
                  | col vals' => simp only [findMismatch, hd, hd']; exact hrest
                  | image i => simp only [findMismatch, hd, hd']; exact hrest
          | image i =>
              have hno : streamLen? d nm = none := by rw [streamLen?, hd]
              rw [hno] at hsl
              cases hd' : lookup d' nm with
              | none => simp only [findMismatch, hd, hd']; exact hrest
              | some e' =>
                  cases e' with
                  | stream recs' =>
                      rw [streamLen?, hd'] at hsl
                      exact absurd hsl (by simp)
                  | col vals' => simp only [findMismatch, hd, hd']; exact hrest
                  | image i' => simp only [findMismatch, hd, hd']; exact hrest

theorem addFieldLoop_err (name : String) :
    ∀ (fs : List String) (d : Data) (recs : List (List Int)) (m : Nat),
    lookup d name = some (.stream recs) → ¬ name ∈ fs →
    (∀ f ∈ fs, ∃ vals, lookup d f = some (.col vals)) →
    firstBadField d recs.length fs = some m →
    ∃ d', addFieldLoop name d fs
      = .error (.valueError (lenMismatchMsg recs.length m), d') := by
  intro fs
  induction fs with
  | nil => intro d recs m _ _ _ h; exact absurd h (by simp [firstBadField])
  | cons f fs' ih =>
      intro d recs m h hnm hcols hbad
      obtain ⟨vals, hv⟩ := hcols f (by simp)
      have hcl : colLen d f = vals.length := by rw [colLen, hv]
      rw [firstBadField] at hbad
      by_cases hb : colLen d f ≠ recs.length
      · rw [if_pos hb] at hbad
        obtain rfl := Option.some.inj hbad
        have hne : ¬ recs.length = vals.length := by
          rw [← hcl]
          exact fun hh => hb hh.symm
        refine ⟨d, ?_⟩
        simp only [addFieldLoop, h, hv]
        rw [if_neg hne, hcl]
      · rw [if_neg hb] at hbad
        have hgood : vals.length = recs.length := by
          rw [← hcl]
          exact not_not.1 hb
        have hlen₁ : (List.zipWith (fun r v => r ++ [v]) recs vals).length = recs.length := by
          simp [List.length_zipWith, hgood]
        have hnamef : name ≠ f := fun hh => hnm (hh ▸ List.mem_cons_self _ _)
        have hnm' : ¬ name ∈ fs' := fun hh => hnm (List.mem_cons_of_mem _ hh)
        set d₁ := setKey d name (.stream (List.zipWith (fun r v => r ++ [v]) recs vals))
          with hd₁
        have hcols₁ : ∀ f' ∈ fs', ∃ vals', lookup d₁ f' = some (.col vals') := by
          intro f' hf'
          have hne : f' ≠ name := fun hh => hnm' (hh ▸ hf')
          obtain ⟨vals', hv'⟩ := hcols f' (List.mem_cons_of_mem _ hf')
          exact ⟨vals', by rw [hd₁, lookup_setKey_ne _ _ _ _ hne, hv']⟩
        have hbad₁ : firstBadField d₁
            (List.zipWith (fun r v => r ++ [v]) recs vals).length fs' = some m := by
          rw [hlen₁, firstBadField_congr d d₁ recs.length fs'
            (fun f' hf' => by
              have hne : f' ≠ name := fun hh => hnm' (hh ▸ hf')
              rw [colLen, colLen, hd₁, lookup_setKey_ne _ _ _ _ hne])]
          exact hbad
        obtain ⟨d', herr⟩ := ih d₁ (List.zipWith (fun r v => r ++ [v]) recs vals) m
          (by rw [hd₁]; exact lookup_setKey_self _ _ _) hnm' hcols₁ hbad₁
        rw [hlen₁] at herr
        refine ⟨d', ?_⟩
        simp only [addFieldLoop, h, hv]
        rw [if_pos hgood.symm]
        exact herr

theorem addStreamLoop_err (fs : List String) :
    ∀ (names : List String) (d : Data) (n m : Nat),
    (∀ nm ∈ names, ¬ nm ∈ fs) →
    (∀ nm ∈ names, ∀ e, lookup d nm = some e → ∃ recs, e = .stream recs) →
    (∀ f ∈ fs, ∃ vals, lookup d f = some (.col vals)) →
    findMismatch d fs names = some (n, m) →
    ∃ d', addStreamLoop fs d names = .error (.valueError (lenMismatchMsg n m), d') := by
  intro names
  induction names with
  | nil => intro d n m _ _ _ h; exact absurd h (by simp [findMismatch])
  | cons nm rest ih =>
      intro d n m hdisj hwf hcols hfm
      cases hd : lookup d nm with
      | none =>
          rw [findMismatch, hd] at hfm
          obtain ⟨d', herr⟩ := ih d n m (fun x hx => hdisj x (List.mem_cons_of_mem _ hx))
            (fun x hx => hwf x (List.mem_cons_of_mem _ hx)) hcols hfm
          refine ⟨d', ?_⟩
          have hstep : addStreamLoop fs d (nm :: rest) = addStreamLoop fs d rest := by
            simp only [addStreamLoop, hd, Option.isSome_none]
            rfl
          rw [hstep]
          exact herr
      | some e =>
          obtain ⟨recs, rfl⟩ := hwf nm (by simp) e hd
          have hnmfs : ¬ nm ∈ fs := hdisj nm (by simp)
          simp only [findMismatch, hd] at hfm
          cases hb : firstBadField d recs.length fs with
          | some m' =>
              rw [hb] at hfm
              have h2 : (recs.length, m') = (n, m) := Option.some.inj hfm
              have hn : recs.length = n := congrArg Prod.fst h2
              have hm : m' = m := congrArg Prod.snd h2
              subst hn
              subst hm
              obtain ⟨d', herr⟩ := addFieldLoop_err nm fs d recs m' hd hnmfs hcols hb
              refine ⟨d', ?_⟩
              simp only [addStreamLoop, hd, Option.isSome_some, herr, if_true]
          | none =>
              rw [hb] at hfm
              have hcolsOf : ∀ f ∈ fs,
                  lookup d f = some (.col (colOf d f)) ∧ (colOf d f).length = recs.length := by
                intro f hf
                obtain ⟨vals, hv⟩ := hcols f hf
                have h1 : colOf d f = vals := by rw [colOf, hv]
                have h2 : colLen d f = recs.length := firstBadField_none d recs.length fs hb f hf
                have h3 : colLen d f = vals.length := by rw [colLen, hv]
                refine ⟨by rw [h1]; exact hv, by rw [h1, ← h3, h2]⟩
              have hok := addFieldLoop_ok nm (colOf d) fs d recs hd hnmfs hcolsOf
              set d₁ := setKey d nm (.stream (attachCols recs (List.map (colOf d) fs)))
                with hd₁
              have hattlen : (attachCols recs (List.map (colOf d) fs)).length = recs.length :=
                attachCols_length (List.map (colOf d) fs) recs
                  (fun c hc => by
                    obtain ⟨f, hf, rfl⟩ := List.mem_map.1 hc
                    exact (hcolsOf f hf).2)
              obtain ⟨d', herr⟩ := ih d₁ n m
                (fun x hx => hdisj x (List.mem_cons_of_mem _ hx))
                (fun x hx e' he' => by
                  by_cases hxnm : x = nm
                  · subst hxnm
                    rw [hd₁, lookup_setKey_self] at he'
                    exact ⟨attachCols recs (List.map (colOf d) fs),
                      (Option.some.inj he').symm⟩
                  · rw [hd₁, lookup_setKey_ne _ _ _ _ hxnm] at he'
                    exact hwf x (List.mem_cons_of_mem _ hx) e' he')
                (fun f hf => by
                  have hne : f ≠ nm := fun hh => hnmfs (hh ▸ hf)
                  obtain ⟨vals, hv⟩ := hcols f hf
                  exact ⟨vals, by rw [hd₁, lookup_setKey_ne _ _ _ _ hne, hv]⟩)
                (by
                  rw [findMismatch_congr d d₁ fs
                    (fun f hf => by
                      have hne : f ≠ nm := fun hh => hnmfs (hh ▸ hf)
                      rw [colLen, colLen, hd₁, lookup_setKey_ne _ _ _ _ hne])
                    rest
                    (fun x hx => by
                      by_cases hxnm : x = nm
                      · subst hxnm
                        simp only [streamLen?, hd₁, lookup_setKey_self, hd]
                        rw [hattlen]
                      · rw [streamLen?, streamLen?, hd₁, lookup_setKey_ne _ _ _ _ hxnm])]
                  exact hfm)
              refine ⟨d', ?_⟩
              simp only [addStreamLoop, hd, Option.isSome_some, hok]
              exact herr

/-- Counterexample to C3: on `sampleBad` the second label column `f2` has
the wrong length, and `preprocess` does raise the length-mismatch
ValueError naming both lengths — but at raise time the `bboxes` stream has
already been rebuilt with the first label field's values attached
(`[[1, 2, 7]]` instead of the original `[[1, 2]]`), so the failure is not
"before mutating any stream". -/
theorem c3_counterexample :
    preprocess procW sampleBad = .error
      (.valueError "The lengths of bboxes and labels do not match. Got 1 and 0 respectively.",
       [("image", .image (.ndarray [4, 4, 3])),
        ("bboxes", .stream [[1, 2, 7]]),
        ("f1", .col [7]),
        ("f2", .col [])])
  ∧ lookup sampleBad "bboxes" = some (.stream [[1, 2]])
  ∧ ¬ lookup
      [("image", Entry.image (.ndarray [4, 4, 3])),
       ("bboxes", Entry.stream [[1, 2, 7]]),
       ("f1", Entry.col [7]),
       ("f2", Entry.col [])] "bboxes" = lookup sampleBad "bboxes" := by
  refine ⟨by decide, by decide, by decide⟩

/-- C3, amended: whenever some declared label field's column length differs
from its annotation stream's length, `preprocess` fails with the
length-mismatch ValueError naming the stream length and the column length
of the first mismatching (stream, field) pair in iteration order — the two
named lengths differ — but the failure is not guaranteed to happen before
mutation: streams processed earlier in the iteration, and the mismatching
stream itself for label fields before the mismatching one, may already hold
rebuilt records with labels attached when the error is raised. -/
theorem c3_length_mismatch_amended (p : DataProcessor) (d : Data) (fs : List String)
    (n m : Nat)
    (hlf : p.params.label_fields = some fs)
    (hdisj : ∀ x ∈ p.data_fields, ¬ x ∈ fs)
    (hstreams : ∀ x ∈ p.data_fields, ∀ e, lookup d x = some e → ∃ recs, e = .stream recs)
    (hcols : ∀ f ∈ fs, ∃ vals, lookup d f = some (.col vals))
    (hmm : findMismatch d fs p.data_fields = some (n, m)) :
    n ≠ m ∧ ∃ d', preprocess p d = .error (.valueError (lenMismatchMsg n m), d') := by
  refine ⟨findMismatch_ne d fs p.data_fields n m hmm, ?_⟩
  obtain ⟨d', herr⟩ := addStreamLoop_err fs p.data_fields d n m hdisj hstreams hcols hmm
  refine ⟨d', ?_⟩
  have hadd : add_label_fields_to_data p d
      = .error (.valueError (lenMismatchMsg n m), d') := by
    rw [add_label_fields_to_data, hlf]
    exact herr
  simp only [preprocess, hadd]

/-- Witness for C3 (amended) at the concrete processor and mismatched
sample. -/
theorem c3_length_mismatch_amended_witness :
    (1 : Nat) ≠ 0 ∧ ∃ d', preprocess procW sampleBad
      = .error (.valueError (lenMismatchMsg 1 0), d') :=
  c3_length_mismatch_amended procW sampleBad ["f1", "f2"] 1 0 rfl (by decide)
    (by
      intro x hx e he
      have hx' : x = "bboxes" := by simpa [procW] using hx
      subst hx'
      have hl : lookup sampleBad "bboxes" = some (.stream [[1, 2]]) := by decide
      rw [hl] at he
      exact ⟨[[1, 2]], (Option.some.inj he).symm⟩)
    (by
      intro f hf
      have hf' : f = "f1" ∨ f = "f2" := by simpa using hf
      rcases hf' with rfl | rfl
      · exact ⟨[7], by decide⟩
      · exact ⟨[], by decide⟩)
    (by decide)

end Albu
